import Mathlib

/-!
A verification development for the till-bot transaction pipeline.

The Python sources are shallowly embedded as executable Lean definitions:

* `src/bots/mycelium_bot/main.py` — the natural-language parser
  (`detect_currency`, `detect_income_vs_expense`, `parse_financial_text`),
  the staging behaviour of `process_financial_message`, the staging store
  (`pending_messages` table, `store_message`, the `/api/pending-messages`
  query and `/api/mark-processed` mutation).
* `src/bots/tree_bot/main.py` — the categorizer
  (`categorize_transaction` validation, `save_processed_transaction`,
  `mark_mycelium_processed`, the `process_pending_messages` loop, and the
  `transactions` ledger table of `init_tree_database`).
* `src/bots/tree_bot/financial_summary_generator.py` — the aggregator
  (`get_period_data`, the shared body of `create_weekly_summary` /
  `create_monthly_summary` / `create_quarterly_summary`, and the
  `INSERT OR REPLACE` persistence of `save_summary`).

Modelling conventions:

* Python strings are `List Char`; `str.lower`, `str.strip`, `str.split`
  are embedded for their ASCII behaviour (all keyword tables, trigger
  phrases and regex character classes in the source are ASCII).
* The regular expressions of the source are hand-compiled, pattern by
  pattern, into deterministic matchers with exactly the backtracking the
  Python `re` module performs on them (the amount atom
  `\d+(?:\.\d{2})?` backtracks through shorter digit runs and through
  dropping the optional fraction; character-class stars such as `\s*`,
  `[,\s]*`, `\w+` never need backtracking in these patterns because the
  class is disjoint from the character required next, so they are
  embedded greedily).
* Monetary amounts are `ℚ` (Python `float` applied to a `\d+(?:\.\d{2})?`
  literal is exact decimal arithmetic at this scale).
* SQLite `DATETIME` values are `Ts` (a day index plus a time-of-day
  index, ordered lexicographically); SQLite `date(timestamp)` is `Ts.day`.
* Each SQLite table is a Lean list of rows plus, for the staging table,
  the `AUTOINCREMENT` counter.  A `NULL`-able column is an `Option`.
-/

/-! ## ASCII string primitives (Python `lower`, `strip`, `split`) -/

/-- ASCII decimal digit, the `\d` class as used by the source's patterns. -/
def isDigitC (c : Char) : Bool := '0' ≤ c && c ≤ '9'

/-- Python `\s` class over ASCII: space, tab, newline, carriage return,
vertical tab, form feed. -/
def isSpaceC (c : Char) : Bool :=
  c = ' ' || c = '\t' || c = '\n' || c = '\r' || c = '\x0b' || c = '\x0c'

/-- Python `\w` class over ASCII: letters, digits, underscore. -/
def isWordC (c : Char) : Bool :=
  ('a' ≤ c && c ≤ 'z') || ('A' ≤ c && c ≤ 'Z') || isDigitC c || c = '_'

/-- ASCII lower-casing, Python `str.lower` on ASCII text. -/
def lowerC (c : Char) : Char :=
  if 'A' ≤ c && c ≤ 'Z' then Char.ofNat (c.toNat + 32) else c

def lowerS (s : List Char) : List Char := s.map lowerC

/-- Python `str.strip()`. -/
def pyStrip (s : List Char) : List Char :=
  ((s.dropWhile isSpaceC).reverse.dropWhile isSpaceC).reverse

/-- Convert a string literal to the `List Char` representation. -/
def str (s : String) : List Char := s.toList

def splitWsAux : List Char → List Char → List (List Char)
  | acc, [] => if acc.isEmpty then [] else [acc.reverse]
  | acc, c :: t =>
    if isSpaceC c then
      if acc.isEmpty then splitWsAux [] t else acc.reverse :: splitWsAux [] t
    else splitWsAux (c :: acc) t

/-- Python `str.split()` (split on whitespace runs, dropping empty words). -/
def splitWs (s : List Char) : List (List Char) := splitWsAux [] s

/-- Does `w` occur at the very start of `s`?  (`str.startswith`, and the
building block for literal regex atoms.) -/
def startsWithL : List Char → List Char → Bool
  | [], _ => true
  | _ :: _, [] => false
  | a :: w, b :: s => a = b && startsWithL w s

/-- Python substring containment `needle in hay`. -/
def containsStr (needle hay : List Char) : Bool :=
  match hay with
  | [] => startsWithL needle []
  | _ :: t => startsWithL needle hay || containsStr needle t

/-! ## Hand-compiled regex building blocks

`searchPos f s` is `re.search`: try the pattern body `f` at every start
position, leftmost match wins (including the empty position at the end of
the string, as `re.search` does). -/

def searchPos {α : Type} (f : List Char → Option α) : List Char → Option α
  | [] => f []
  | c :: t => (f (c :: t)).orElse (fun _ => searchPos f t)

/-- Match a literal word, returning the rest of the input. -/
def litW (w s : List Char) : Option (List Char) :=
  if startsWithL w s then some (s.drop w.length) else none

/-- An alternation of literal words `(?:w₁|w₂|…)` followed by the
continuation `k`; alternatives are tried in the listed order and the
continuation may reject, sending the engine to the next alternative —
exactly Python's backtracking through an alternation. -/
def altThen {α : Type} (ws : List (List Char)) (s : List Char)
    (k : List Char → Option α) : Option α :=
  ws.findSome? (fun w => (litW w s).bind k)

/-- Greedy optional alternation of literal words `(?:w₁|w₂|…)?` whose
continuation always succeeds (used only where the tail of the pattern is
`\s*(.*)`, which matches anywhere, so no backtracking can be observed). -/
def optAlt (ws : List (List Char)) (s : List Char) : List Char :=
  match ws.findSome? (fun w => litW w s) with
  | some r => r
  | none => s

/-- Numeric value of a digit run. -/
def natOfDigits (ds : List Char) : Nat :=
  ds.foldl (fun n c => 10 * n + (c.toNat - '0'.toNat)) 0

/-- `float` of an integer digit run. -/
def ratInt (ds : List Char) : ℚ := (natOfDigits ds : ℚ)

/-- `float` of `ds.ab` for digit characters `a`, `b`. -/
def ratFrac (ds : List Char) (a b : Char) : ℚ :=
  (natOfDigits ds : ℚ) + ((10 * (a.toNat - '0'.toNat) + (b.toNat - '0'.toNat) : Nat) : ℚ) / 100

/-- One backtracking alternative of the amount atom: the first `j` digits
of `ds`, first trying to also take the optional `\.\d{2}` fraction. -/
def numTryWith {α : Type} (d1 rest : List Char) (k : List Char → ℚ → Option α) : Option α :=
  (match rest with
   | '.' :: a :: b :: r2 =>
     if isDigitC a && isDigitC b then k r2 (ratFrac d1 a b) else none
   | _ => none).orElse
  (fun _ => k rest (ratInt d1))

def numThenAux {α : Type} (ds rest : List Char) (k : List Char → ℚ → Option α) :
    Nat → Option α
  | 0 => none
  | j + 1 =>
    (numTryWith (ds.take (j + 1)) (ds.drop (j + 1) ++ rest) k).orElse
      (fun _ => numThenAux ds rest k j)

/-- The amount atom `(\d+(?:\.\d{2})?)` followed by continuation `k`:
`\d+` is greedy over the leading digit run and backtracks to shorter runs,
and the optional two-digit fraction is tried before being dropped —
Python's exact order of alternatives. -/
def numThen {α : Type} (s : List Char) (k : List Char → ℚ → Option α) : Option α :=
  let ds := s.takeWhile isDigitC
  numThenAux ds (s.dropWhile isDigitC) k ds.length

/-- `$` of Python `re` without `MULTILINE`: end of input, or just before a
single trailing newline. -/
def endOfStr (s : List Char) : Bool := s = [] || s = ['\n']

/-- `(.*)`: everything up to the end of the line (`.` does not match a
newline). -/
def restOfLine (s : List Char) : List Char := s.takeWhile (fun c => c ≠ '\n')

/-! ## `detect_currency` (mycelium_bot/main.py lines 69-85) -/

/-- The `CURRENCY_WORDS` table, in source (dict insertion) order. -/
def CURRENCY_WORDS : List (List Char × String) :=
  [(str "dollar", "USD"), (str "dollars", "USD"), (str "usd", "USD"),
   (str "euro", "EUR"), (str "euros", "EUR"), (str "eur", "EUR"),
   (str "pound", "GBP"), (str "pounds", "GBP"), (str "gbp", "GBP"),
   (str "yen", "JPY"), (str "yuan", "CNY"), (str "jpy", "JPY"), (str "cny", "CNY"),
   (str "real", "BRL"), (str "reals", "BRL"), (str "reais", "BRL"), (str "brl", "BRL"),
   (str "rupee", "INR"), (str "rupees", "INR"), (str "inr", "INR")]

def wordish : Option Char → Bool
  | some c => isWordC c
  | none => false

/-- A `\b` word boundary between two adjacent characters (either may be
absent at the edges of the text). -/
def bdry (a b : Option Char) : Bool := wordish a != wordish b

/-- `re.sub(r'\b' + re.escape(word) + r'\b', '', text)`: delete every
non-overlapping, word-boundary-delimited occurrence of `w`, scanning left
to right over the original text (as `re.sub` does). -/
def removeWBAux (w : List Char) (wLast : Char) : Nat → Option Char → List Char → List Char
  | 0, _, s => s
  | _ + 1, _, [] => []
  | fuel + 1, prev, c :: t =>
    if startsWithL w (c :: t) && bdry prev (some c) &&
        bdry (some wLast) ((c :: t).drop w.length).head? then
      removeWBAux w wLast fuel (some wLast) (t.drop (w.length - 1))
    else c :: removeWBAux w wLast fuel (some c) t

def removeWB (w t : List Char) : List Char :=
  match w with
  | [] => t
  | c :: _ => removeWBAux w (w.getLastD c) t.length none t

/-- `detect_currency`: scan the split, cleaned words of the lower-cased,
stripped text for a currency synonym; on a hit delete that word (with
word boundaries) from the lowered text; otherwise fall back to a `$`
glyph; default `USD` with the text unchanged. -/
def detect_currency (text : List Char) : String × List Char :=
  let text_lower := pyStrip (lowerS text)
  match (splitWs text_lower).findSome? (fun w =>
      let clean_word := w.filter isWordC
      (CURRENCY_WORDS.findSome? (fun p => if p.1 = clean_word then some p.2 else none)).map
        (fun cur => (cur, w))) with
  | some (cur, w) => (cur, pyStrip (removeWB w text_lower))
  | none =>
    if text.contains '$' then ("USD", pyStrip (text.filter (fun c => c ≠ '$')))
    else ("USD", text)

/-! ## `detect_income_vs_expense` (mycelium_bot/main.py lines 87-144) -/

def strong_income_keywords : List (List Char) :=
  [str "earned", str "made money", str "income", str "freelance payment", str "client paid",
   str "received payment", str "salary", str "bonus", str "refund", str "cashback",
   str "sold something", str "gift money"]

def strong_expense_keywords : List (List Char) :=
  [str "spent", str "bought", str "purchased", str "paid for", str "cost me", str "bill",
   str "subscription", str "fee", str "charge", str "rent", str "food", str "coffee",
   str "book", str "course", str "lesson", str "uber", str "taxi", str "gas", str "groceries"]

def income_keywords : List (List Char) :=
  [str "earned", str "made", str "received", str "got paid"]

def expense_keywords : List (List Char) :=
  [str "paid", str "spend", str "buy", str "cost", str "on ", str "for "]

/-- `\s+` (one or more whitespace characters, greedy). -/
def spacePlus (s : List Char) : Option (List Char) :=
  match s with
  | c :: t => if isSpaceC c then some (t.dropWhile isSpaceC) else none
  | [] => none

/-- Expense pattern `\d+(?:\.\d{2})?\s+(?:on|for)\s+\w+`. -/
def expensePat1 (t : List Char) : Bool :=
  (searchPos (fun s => numThen s (fun r _ =>
    (spacePlus r).bind (fun r2 => altThen [str "on", str "for"] r2 (fun r3 =>
      (spacePlus r3).bind (fun r4 =>
        match r4.head? with
        | some c => if isWordC c then some () else none
        | none => none))))) t).isSome

/-- Expense pattern `\w+\s+\d+(?:\.\d{2})?`. -/
def expensePat2 (t : List Char) : Bool :=
  (searchPos (fun s =>
    match s.head? with
    | some c =>
      if isWordC c then
        (spacePlus (s.dropWhile isWordC)).bind (fun r2 =>
          match r2.head? with
          | some d => if isDigitC d then some () else none
          | none => none)
      else none
    | none => none) t).isSome

/-- Expense patterns `spent.*\d+` and `bought.*\d+` (`.` stops at a newline). -/
def expensePatKw (kw : List Char) (t : List Char) : Bool :=
  (searchPos (fun s => (litW kw s).bind (fun r =>
    if (restOfLine r).any isDigitC then some () else none)) t).isSome

/-- `detect_income_vs_expense`: strong keyword hit wins with confidence 3,
then the medium-confidence expense regexes, then weak keyword counting,
with expense/0 on a tie. -/
def detect_income_vs_expense (text : List Char) : Bool × Nat :=
  let text_lower := lowerS text
  if strong_income_keywords.any (fun k => containsStr k text_lower) then (true, 3)
  else if strong_expense_keywords.any (fun k => containsStr k text_lower) then (false, 3)
  else if expensePat1 text_lower || expensePat2 text_lower ||
      expensePatKw (str "spent") text_lower || expensePatKw (str "bought") text_lower then
    (false, 2)
  else
    let income_score := (income_keywords.filter (fun k => containsStr k text_lower)).length
    let expense_score := (expense_keywords.filter (fun k => containsStr k text_lower)).length
    if income_score > expense_score then (true, 1)
    else if expense_score > income_score then (false, 1)
    else (false, 0)

/-! ## Correction patterns (mycelium_bot/main.py lines 152-169) -/

def correction_trigger_phrases : List (List Char) :=
  [str "actually", str "wait", str "i meant", str "should be", str "correction",
   str "make that", str "change to", str "fix that", str "sorry", str "oops"]

/-- `(?:actually|wait|i meant|should be|correction|make that|change to|fix that|sorry|oops)[,\s]*(\d+(?:\.\d{2})?)` -/
def corrPat1 (t : List Char) : Option ℚ :=
  searchPos (fun s => altThen correction_trigger_phrases s (fun r =>
    numThen (r.dropWhile (fun c => c = ',' || isSpaceC c)) (fun _ v => some v))) t

/-- `^(\d+(?:\.\d{2})?)\s*(?:correction|fix|change)` -/
def corrPat2 (t : List Char) : Option ℚ :=
  numThen t (fun r v =>
    let r2 := r.dropWhile isSpaceC
    if startsWithL (str "correction") r2 || startsWithL (str "fix") r2 ||
        startsWithL (str "change") r2 then some v else none)

/-- `correction[:\s]*(\d+(?:\.\d{2})?)` -/
def corrPat3 (t : List Char) : Option ℚ :=
  searchPos (fun s => (litW (str "correction") s).bind (fun r =>
    numThen (r.dropWhile (fun c => c = ':' || isSpaceC c)) (fun _ v => some v))) t

/-- The correction-pattern loop: the three patterns in source order, first
match wins (the `float` conversion of a matched group never fails, so the
`except ValueError: continue` arm is dead). -/
def corrAmount (t : List Char) : Option ℚ :=
  (corrPat1 t).orElse (fun _ => (corrPat2 t).orElse (fun _ => corrPat3 t))

/-! ## Amount/description extraction patterns (mycelium_bot/main.py lines 175-214)

Each matcher returns the matched `(amount, raw description group)`. -/

/-- `(?:earned|made|received)\s*(\d+(?:\.\d{2})?)\s*(?:from|for)?\s*(.*)` -/
def extractPat1 (t : List Char) : Option (ℚ × List Char) :=
  searchPos (fun s => altThen [str "earned", str "made", str "received"] s (fun r1 =>
    numThen (r1.dropWhile isSpaceC) (fun r3 v =>
      let r4 := (r3.dropWhile isSpaceC)
      let r5 := optAlt [str "from", str "for"] r4
      some (v, restOfLine (r5.dropWhile isSpaceC))))) t

/-- `(?:spent|paid|bought)\s*(\d+(?:\.\d{2})?)\s*(?:on|for)\s*(.*)` -/
def extractPat2 (t : List Char) : Option (ℚ × List Char) :=
  searchPos (fun s => altThen [str "spent", str "paid", str "bought"] s (fun r1 =>
    numThen (r1.dropWhile isSpaceC) (fun r3 v =>
      altThen [str "on", str "for"] (r3.dropWhile isSpaceC) (fun r5 =>
        some (v, restOfLine (r5.dropWhile isSpaceC)))))) t

/-- `^(\d+(?:\.\d{2})?)\s+(?:for|on)\s+(.*)` -/
def extractPat3 (t : List Char) : Option (ℚ × List Char) :=
  numThen t (fun r v => (spacePlus r).bind (fun r2 =>
    altThen [str "for", str "on"] r2 (fun r3 =>
      (spacePlus r3).map (fun r4 => (v, restOfLine r4)))))

/-- `^(\d+(?:\.\d{2})?)\s+(?:dollars?|euros?|pounds?|yen|yuan)?\s*(.*)` -/
def extractPat4 (t : List Char) : Option (ℚ × List Char) :=
  numThen t (fun r v => (spacePlus r).map (fun r2 =>
    let r3 := optAlt [str "dollars", str "dollar", str "euros", str "euro",
      str "pounds", str "pound", str "yen", str "yuan"] r2
    (v, restOfLine (r3.dropWhile isSpaceC))))

/-- `^(.*?)\s+(\d+(?:\.\d{2})?)$`: the lazy group tries descriptions of
increasing length (never past a newline), each followed by `\s+`, the
amount atom, and end-of-string. -/
def extractPat5Aux : List Char → List Char → Option (ℚ × List Char)
  | _, [] => none
  | acc, c :: t =>
    ((spacePlus (c :: t)).bind (fun r1 => numThen r1 (fun r2 v =>
      if endOfStr r2 then some (v, acc.reverse) else none))).orElse
    (fun _ => if c = '\n' then none else extractPat5Aux (c :: acc) t)

def extractPat5 (t : List Char) : Option (ℚ × List Char) := extractPat5Aux [] t

/-- The pattern priority list of `parse_financial_text`, in source order
(the `order_type` tags of the source only say which group is the amount;
each matcher above already returns `(amount, description group)`). -/
def extractionPatterns : List (List Char → Option (ℚ × List Char)) :=
  [extractPat1, extractPat2, extractPat3, extractPat4, extractPat5]

/-! ## `parse_financial_text` (mycelium_bot/main.py lines 146-218) -/

/-- `re.sub(r'^(?:on|for|from)\s*', '', d)`: remove one leading
preposition (alternatives in source order) plus following whitespace. -/
def stripLeadPrep (d : List Char) : List Char :=
  if startsWithL (str "on") d then (d.drop 2).dropWhile isSpaceC
  else if startsWithL (str "for") d then (d.drop 3).dropWhile isSpaceC
  else if startsWithL (str "from") d then (d.drop 4).dropWhile isSpaceC
  else d

/-- The description post-processing of the pattern loop: strip the group;
an empty group stays the (falsy) empty string; a non-empty group has the
leading preposition removed and is stripped again, becoming `None` if
nothing is left.  `none` is Python `None`; `some []` is Python `""`. -/
def descAfter (g : List Char) : Option (List Char) :=
  let d := pyStrip g
  if d.isEmpty then some []
  else
    let d2 := pyStrip (stripLeadPrep d)
    if d2.isEmpty then none else some d2

inductive ParseTag where
  | correction : ParseTag
  | conf : Nat → ParseTag
deriving DecidableEq, Repr

/-- The 5-tuple returned by `parse_financial_text`:
`(amount, description, currency, is_income, parse_type)` where
`parse_type` is the string `'correction'` or the confidence integer.
`description = none` is Python `None`, `description = some []` is the
(also falsy) empty string; `is_income = none` is the correction case's
`None`. -/
structure ParseResult where
  amount : Option ℚ
  description : Option (List Char)
  currency : String
  is_income : Option Bool
  tag : ParseTag
deriving DecidableEq, Repr

/-- `parse_financial_text`.  The correction patterns run first, before
income/expense classification; otherwise the extraction pattern loop
returns the first matching pattern's groups; the fall-through returns
`(None, None, currency, False, 0)`.  The enclosing `try/except` of the
source is dead in this embedding because every embedded operation is
total. -/
def parse_financial_text (message_text : List Char) : ParseResult :=
  let original_text := pyStrip message_text
  let cur_txt := detect_currency original_text
  let text_lower := lowerS cur_txt.2
  match corrAmount text_lower with
  | some a => ⟨some a, some (str "CORRECTION"), cur_txt.1, none, .correction⟩
  | none =>
    let inc_conf := detect_income_vs_expense original_text
    match extractionPatterns.findSome? (fun p => p text_lower) with
    | some (a, g) => ⟨some a, descAfter g, cur_txt.1, some inc_conf.1, .conf inc_conf.2⟩
    | none => ⟨none, none, cur_txt.1, some false, .conf 0⟩

/-! ## Staging decision of `process_financial_message`
(mycelium_bot/main.py lines 331-373) -/

/-- Python float truthiness (`0.0` is falsy). -/
def truthyQ : Option ℚ → Bool
  | some a => a ≠ 0
  | none => false

/-- Python string truthiness for an optional string (`None` and `""` falsy). -/
def truthyD : Option (List Char) → Bool
  | some d => !d.isEmpty
  | none => false

/-- The column values `process_financial_message` hands to
`store_message` for a given inbound text. -/
structure StagedFields where
  raw_message : List Char
  message_type : String
  amount : Option ℚ
  currency : String
  description : Option (List Char)
  is_income : Option Bool
deriving DecidableEq, Repr

/-- The branch structure of `process_financial_message`: corrections are
staged with the parsed amount and `is_income = NULL`; a truthy amount and
truthy description stage an income/expense row; a truthy amount without a
description stages an `unclear_amount` row with description
`"NEEDS_CONTEXT"`; everything else stages an `unclear` row through
`store_message`'s defaults (no amount, `'USD'`, no description). -/
def stagedFieldsOf (text : List Char) : StagedFields :=
  let r := parse_financial_text text
  if r.tag = .correction then
    ⟨text, "correction", r.amount, r.currency, r.description, none⟩
  else if truthyQ r.amount && truthyD r.description then
    let inc := r.is_income.getD false
    ⟨text, if inc then "income" else "expense", r.amount, r.currency, r.description, some inc⟩
  else if truthyQ r.amount && !truthyD r.description then
    ⟨text, "unclear_amount", r.amount, r.currency, some (str "NEEDS_CONTEXT"), r.is_income⟩
  else
    ⟨text, "unclear", none, "USD", none, some false⟩

/-! ## The staging store (`pending_messages` table, mycelium_bot/main.py)

`init_cloud_database` declares `id INTEGER PRIMARY KEY AUTOINCREMENT`,
`processed BOOLEAN DEFAULT FALSE`, `timestamp DATETIME DEFAULT
CURRENT_TIMESTAMP`.  The table is a list of rows in insertion (rowid)
order plus the autoincrement counter; the insertion timestamp is passed
explicitly. -/

/-- A SQLite `DATETIME` instant: a day index and a time-of-day index,
ordered lexicographically.  `date(timestamp)` is the `day` component. -/
structure Ts where
  day : Nat
  tod : Nat
deriving DecidableEq, Repr

structure StagedRow where
  id : Nat
  user_id : Nat
  username : List Char
  raw_message : List Char
  message_type : String
  amount : Option ℚ
  currency : String
  description : Option (List Char)
  is_income : Option Bool
  processed : Bool
  created_at : Ts
deriving DecidableEq, Repr

structure MyceliumStore where
  rows : List StagedRow
  next_id : Nat
deriving DecidableEq, Repr

/-- `store_message`: one durable `INSERT` assigning the next autoincrement
id, `processed` defaulting to `FALSE`. -/
def store_message (s : MyceliumStore) (user_id : Nat) (username : List Char)
    (created_at : Ts) (f : StagedFields) : MyceliumStore :=
  let row : StagedRow :=
    { id := s.next_id, user_id := user_id, username := username,
      raw_message := f.raw_message, message_type := f.message_type, amount := f.amount,
      currency := f.currency, description := f.description, is_income := f.is_income,
      processed := false, created_at := created_at }
  { rows := s.rows ++ [row], next_id := s.next_id + 1 }

/-- The column values stored for `/start` (`"command"`) and `/undo`
(`"undo_request"`): `store_message`'s defaults, in particular no amount. -/
def commandFields (text : List Char) (mtype : String) : StagedFields :=
  ⟨text, mtype, none, "USD", none, some false⟩

/-- `process_financial_message`'s staging effect for an inbound text. -/
def process_financial_message (s : MyceliumStore) (user_id : Nat) (username : List Char)
    (created_at : Ts) (text : List Char) : MyceliumStore :=
  store_message s user_id username created_at (stagedFieldsOf text)

/-- The result order of `ORDER BY timestamp ASC`: ascending
`(created_at, id)` lexicographically.  The scan feeding the sorter emits
rows in rowid (insertion id) order, so rows with equal timestamps come
out in ascending id order; the embedded sort makes that tie-break
explicit. -/
def rowLe (a b : StagedRow) : Prop :=
  a.created_at.day < b.created_at.day ∨
    (a.created_at.day = b.created_at.day ∧
      (a.created_at.tod < b.created_at.tod ∨
        (a.created_at.tod = b.created_at.tod ∧ a.id ≤ b.id)))

instance : DecidableRel rowLe := fun a b =>
  inferInstanceAs (Decidable (a.created_at.day < b.created_at.day ∨
    (a.created_at.day = b.created_at.day ∧
      (a.created_at.tod < b.created_at.tod ∨
        (a.created_at.tod = b.created_at.tod ∧ a.id ≤ b.id)))))

instance : IsTotal StagedRow rowLe := ⟨by intro a b; unfold rowLe; omega⟩

instance : IsTrans StagedRow rowLe := ⟨by intro a b c hab hbc; unfold rowLe at hab hbc ⊢; omega⟩

/-- The query shared by the `/api/pending-messages` endpoint
(`get_pending_messages`) and `TreeTillProcessor.get_pending_mycelium_messages`:
`SELECT … FROM pending_messages WHERE processed = FALSE AND amount IS NOT
NULL ORDER BY timestamp ASC`. -/
def get_pending_messages (s : MyceliumStore) : List StagedRow :=
  List.insertionSort rowLe (s.rows.filter (fun r => !r.processed && r.amount.isSome))

/-- The mutation shared by the `/api/mark-processed` endpoint (a list of
ids) and `TreeTillProcessor.mark_mycelium_processed` (a single id):
`UPDATE pending_messages SET processed = TRUE WHERE id IN (…)`. -/
def mark_processed (s : MyceliumStore) (ids : List Nat) : MyceliumStore :=
  { s with rows := s.rows.map (fun r => if r.id ∈ ids then { r with processed := true } else r) }

/-- Well-formedness the SQLite schema provides: rowids strictly increase
in scan order and stay below the autoincrement counter. -/
def wfStore (s : MyceliumStore) : Prop :=
  List.Pairwise (· < ·) (s.rows.map (fun r => r.id)) ∧ ∀ r ∈ s.rows, r.id < s.next_id

/-- The operations any later client can perform on the staging store. -/
inductive StoreOp where
  | append (user_id : Nat) (username : List Char) (created_at : Ts) (f : StagedFields)
  | mark (ids : List Nat)

def applyOp (s : MyceliumStore) : StoreOp → MyceliumStore
  | .append uid un ts f => store_message s uid un ts f
  | .mark ids => mark_processed s ids

def applyOps (s : MyceliumStore) (ops : List StoreOp) : MyceliumStore :=
  ops.foldl applyOp s

/-! ## The categorizer (tree_bot/main.py, `TreeTillProcessor`) -/

/-- The fixed category list of `TreeTillProcessor.__init__`. -/
def categories : List (List Char) :=
  [str "Food & Dining", str "Transportation", str "Personal Care", str "Health & Fitness",
   str "Shopping & Retail", str "Entertainment", str "Bills & Utilities",
   str "Professional & Work", str "Education & Learning", str "Travel", str "Home & Garden",
   str "Income - Freelance", str "Income - Salary", str "Income - Other", str "Other"]

/-- Python truthiness of the `is_income` column value (`None`/`0` falsy). -/
def incTruthy (o : Option Bool) : Bool := o = some true

/-- `"income" if is_income else "expense"`, the transaction type embedded
in the categorization prompt (`categorize_transaction`). -/
def transaction_type (is_income : Option Bool) : String :=
  if incTruthy is_income then "income" else "expense"

/-- The response of the external classification service for one request:
a connection failure, or an HTTP status with a body text. -/
inductive SvcResp where
  | connError : SvcResp
  | http : Nat → List Char → SvcResp
deriving DecidableEq, Repr

/-- The label validation of `categorize_transaction`: exact membership,
then first case-insensitive substring match in either direction, then the
type-dependent fallback category. -/
def validateCategory (body : List Char) (is_income : Option Bool) : List Char :=
  let category := pyStrip body
  if categories.contains category then category
  else
    let category_lower := lowerS category
    match categories.find? (fun valid =>
        containsStr category_lower (lowerS valid) || containsStr (lowerS valid) category_lower) with
    | some valid => valid
    | none => if incTruthy is_income then str "Income - Other" else str "Other"

/-- `categorize_transaction`: `None` on a connection error
(`RequestException`) or a non-200 status; otherwise the validated label of
the stripped response text. -/
def categorize_transaction (resp : SvcResp) (is_income : Option Bool) : Option (List Char) :=
  match resp with
  | .connError => none
  | .http status body => if status = 200 then some (validateCategory body is_income) else none

/-- One row of the `transactions` ledger table (`init_tree_database`).
The schema declares `mycelium_id INTEGER` with NO uniqueness constraint,
so duplicate `mycelium_id` values are representable and the plain
`INSERT` of `save_processed_transaction` never rejects them.  The
autoincrement `id` is the row's position; `processed_at` is omitted
(never read by the embedded code paths). -/
structure LedgerRow where
  mycelium_id : Nat
  user_id : Nat
  username : List Char
  timestamp : Ts
  amount : ℚ
  description : Option (List Char)
  category : List Char
  currency : String
  is_income : Option Bool
  raw_message : List Char
deriving DecidableEq, Repr

/-- The row `save_processed_transaction` inserts for a staged message and
a category (the staged columns are passed through unchanged). -/
def ledgerRowOf (r : StagedRow) (category : List Char) : LedgerRow :=
  { mycelium_id := r.id, user_id := r.user_id, username := r.username,
    timestamp := r.created_at, amount := r.amount.getD 0, description := r.description,
    category := category, currency := r.currency, is_income := r.is_income,
    raw_message := r.raw_message }

/-- The environment one loop iteration runs against: the service response
for this row's categorization request, whether the ledger `INSERT` commits
(`save_processed_transaction` returns `True`), and whether the
mark-processed `UPDATE` commits (`mark_mycelium_processed` returns `True`
— `False` also models a crash between the two durable writes). -/
structure RowOracle where
  resp : SvcResp
  saveOk : Bool
  markOk : Bool

structure TreeState where
  mycelium : MyceliumStore
  ledger : List LedgerRow
deriving DecidableEq, Repr

/-- Durable-write events of one processing run, for ordering statements. -/
inductive Ev where
  | insert : Nat → Ev
  | mark : Nat → Ev
deriving DecidableEq, Repr

/-- One iteration of the `process_pending_messages` loop body: categorize;
on success insert the ledger row; only if that insert succeeded, mark the
staged row processed.  A categorization failure or failed insert leaves
both stores untouched for this row. -/
def processRow (st : TreeState) (o : Nat → RowOracle) (r : StagedRow) : TreeState × List Ev :=
  match categorize_transaction (o r.id).resp r.is_income with
  | none => (st, [])
  | some category =>
    if (o r.id).saveOk then
      let st1 : TreeState := { st with ledger := st.ledger ++ [ledgerRowOf r category] }
      if (o r.id).markOk then
        ({ st1 with mycelium := mark_processed st1.mycelium [r.id] }, [.insert r.id, .mark r.id])
      else (st1, [.insert r.id])
    else (st, [])

def runLoop (o : Nat → RowOracle) : TreeState → List StagedRow → TreeState × List Ev
  | st, [] => (st, [])
  | st, r :: rest =>
    let p := processRow st o r
    let q := runLoop o p.1 rest
    (q.1, p.2 ++ q.2)

/-- `process_pending_messages`: fetch the pending batch once, then run the
loop body over every row of the batch (the loop never aborts early). -/
def process_pending_messages (st : TreeState) (o : Nat → RowOracle) : TreeState × List Ev :=
  runLoop o st (get_pending_messages st.mycelium)

/-- Repeated invocations of the processing job (crash-and-retry re-runs),
each against its own environment. -/
def runMany (st : TreeState) (os : List (Nat → RowOracle)) : TreeState :=
  os.foldl (fun s o => (process_pending_messages s o).1) st

/-- The events one row contributes, as a function of its own oracle only. -/
def rowEvents (o : Nat → RowOracle) (r : StagedRow) : List Ev :=
  match categorize_transaction (o r.id).resp r.is_income with
  | none => []
  | some _ =>
    if (o r.id).saveOk then
      if (o r.id).markOk then [.insert r.id, .mark r.id] else [.insert r.id]
    else []

/-- The ledger row one row contributes, as a function of its own oracle only. -/
def rowInsert (o : Nat → RowOracle) (r : StagedRow) : Option LedgerRow :=
  match categorize_transaction (o r.id).resp r.is_income with
  | none => none
  | some category => if (o r.id).saveOk then some (ledgerRowOf r category) else none

/-! ## The aggregator (tree_bot/financial_summary_generator.py) -/

structure PeriodData where
  transactions : List LedgerRow
  total_income : ℚ
  total_expenses : ℚ
  net_position : ℚ
  transaction_count : Nat
deriving DecidableEq, Repr

/-- `WHERE date(timestamp) BETWEEN ? AND ?` — both bounds inclusive.  The
`ORDER BY timestamp DESC` of the source is not modelled: only the multiset
of selected rows feeds the sums, the count and the emptiness test that the
claims are about. -/
def selectPeriod (ledger : List LedgerRow) (start_day end_day : Nat) : List LedgerRow :=
  ledger.filter (fun t => start_day ≤ t.timestamp.day && t.timestamp.day ≤ end_day)

/-- `get_period_data`: totals are summed over ALL selected transactions,
split only by the truthiness of `is_income` — the `currency` column is
selected but never consulted.  The category breakdown and top-category
fields are not needed by any claim and are omitted. -/
def get_period_data (ledger : List LedgerRow) (start_day end_day : Nat) : PeriodData :=
  let tx := selectPeriod ledger start_day end_day
  let total_income := ((tx.filter (fun t => incTruthy t.is_income)).map (fun t => t.amount)).sum
  let total_expenses := ((tx.filter (fun t => !incTruthy t.is_income)).map (fun t => t.amount)).sum
  { transactions := tx, total_income := total_income, total_expenses := total_expenses,
    net_position := total_income - total_expenses, transaction_count := tx.length }

structure SummaryRow where
  period_type : String
  period_name : String
  start_date : Nat
  end_date : Nat
  total_income : ℚ
  total_expenses : ℚ
  net_position : ℚ
  transaction_count : Nat
deriving DecidableEq, Repr

/-- `INSERT OR REPLACE` under `UNIQUE(period_type, start_date, end_date)`:
drop any row with the same key, then insert. -/
def upsertSummary (store : List SummaryRow) (row : SummaryRow) : List SummaryRow :=
  (store.filter (fun q => !(q.period_type = row.period_type &&
    q.start_date = row.start_date && q.end_date = row.end_date))) ++ [row]

/-- The shared body of `create_weekly_summary`, `create_monthly_summary`
and `create_quarterly_summary`: compute `get_period_data`; if no
transactions were selected, return `None` and persist nothing; otherwise
persist one summary row via `save_summary` and return it.  (AI-insight
generation degrades to a placeholder string on failure and never blocks
persistence; it is not modelled.) -/
def create_period_summary (store : List SummaryRow) (ledger : List LedgerRow)
    (ptype pname : String) (start_day end_day : Nat) : Option SummaryRow × List SummaryRow :=
  let data := get_period_data ledger start_day end_day
  if data.transactions.isEmpty then (none, store)
  else
    let row : SummaryRow :=
      { period_type := ptype, period_name := pname,
        start_date := start_day, end_date := end_day,
        total_income := data.total_income, total_expenses := data.total_expenses,
        net_position := data.net_position, transaction_count := data.transaction_count }
    (some row, upsertSummary store row)

/-! ## Definitions following the spec's words (for refutation targets) -/

/-- Following the spec's words for claim C7: `total_expenses` "summed
per-currency (never mixing currencies in one total)" — the expense total
of one given currency over the selected period. -/
def specPerCurrencyExpenses (ledger : List LedgerRow) (start_day end_day : Nat)
    (cur : String) : ℚ :=
  (((selectPeriod ledger start_day end_day).filter
    (fun t => !incTruthy t.is_income && t.currency = cur)).map (fun t => t.amount)).sum

/-- Following the spec's words for claim C6: "the first pattern that
yields both a positive numeric amount and a non-empty description (after
stripping leading prepositions …) wins" — patterns whose match lacks a
positive amount or a usable description are passed over. -/
def specFirstBothPattern (t : List Char) : Option (ℚ × List Char) :=
  extractionPatterns.findSome? (fun p => (p t).bind (fun ag =>
    match descAfter ag.2 with
    | some d => if 0 < ag.1 && !d.isEmpty then some (ag.1, d) else none
    | none => none))

/-! ## Derived definitions used by the theorems -/

/-- Strict result order claimed for the pending query: ascending
`created_at`, ties broken by ascending insertion id. -/
def rowLt (a b : StagedRow) : Prop :=
  a.created_at.day < b.created_at.day ∨
    (a.created_at.day = b.created_at.day ∧
      (a.created_at.tod < b.created_at.tod ∨
        (a.created_at.tod = b.created_at.tod ∧ a.id < b.id)))

/-- The staged id one loop iteration marks processed, as a function of its
own oracle only (an id is marked only when its ledger insert committed and
the mark-processed write itself commits). -/
def rowMarked (o : Nat → RowOracle) (r : StagedRow) : Option Nat :=
  match rowInsert o r with
  | some _ => if (o r.id).markOk then some r.id else none
  | none => none

/-- Number of ledger rows referencing a given staged message id. -/
def ledgerCount (ledger : List LedgerRow) (id : Nat) : Nat :=
  (ledger.filter (fun t => t.mycelium_id = id)).length

/-- Amounts the parser's number grammar `\d+(?:\.\d{2})?` can produce:
whole numbers of cents. -/
def isCents (v : ℚ) : Prop := ∃ n : ℕ, v = (n : ℚ) / 100

/-! ## Concrete fixtures for witnesses and counterexamples -/

def emptyStore : MyceliumStore := ⟨[], 1⟩

/-- The staged row `process_financial_message` produces for
`"coffee 5.50"` as the first message of an empty store. -/
def cxRow : StagedRow :=
  ⟨1, 7, str "amy", str "coffee 5.50", "expense", some ((11 : ℚ) / 2), "USD",
    some (str "coffee"), some false, false, ⟨3, 0⟩⟩

def cxMycelium : MyceliumStore := ⟨[cxRow], 2⟩

def cxState : TreeState := ⟨cxMycelium, []⟩

/-- Environment where the ledger insert commits but the mark-processed
write fails (equivalently, the run crashes between the two writes). -/
def oracleSaveNoMark : Nat → RowOracle :=
  fun _ => ⟨SvcResp.http 200 (str "Food & Dining"), true, false⟩

def oracleAllOk : Nat → RowOracle :=
  fun _ => ⟨SvcResp.http 200 (str "Food & Dining"), true, true⟩

/-- Environment where the classification service is unreachable. -/
def oracleConnErr : Nat → RowOracle := fun _ => ⟨SvcResp.connError, true, true⟩

/-- A ledger holding one EUR expense of 10 and one USD expense of 20,
both on day 5. -/
def mixLedger : List LedgerRow :=
  [⟨1, 7, str "amy", ⟨5, 0⟩, 10, some (str "acai"), str "Food & Dining", "EUR", some false, str "m1"⟩,
   ⟨2, 7, str "amy", ⟨5, 1⟩, 20, some (str "book"), str "Shopping & Retail", "USD", some false, str "m2"⟩]

/-- The week of the claimed aggregation scenario: USD expenses 10, 20, 30
and USD income 100, on days 2–5. -/
def usdLedger : List LedgerRow :=
  [⟨1, 7, str "amy", ⟨2, 0⟩, 10, some (str "a"), str "Other", "USD", some false, str "r1"⟩,
   ⟨2, 7, str "amy", ⟨3, 0⟩, 20, some (str "b"), str "Other", "USD", some false, str "r2"⟩,
   ⟨3, 7, str "amy", ⟨4, 0⟩, 30, some (str "c"), str "Other", "USD", some false, str "r3"⟩,
   ⟨4, 7, str "amy", ⟨5, 0⟩, 100, some (str "d"), str "Income - Other", "USD", some true, str "r4"⟩]

/-- A nonempty period whose transactions sum to a zero net position. -/
def zeroNetLedger : List LedgerRow :=
  [⟨1, 7, str "amy", ⟨2, 0⟩, 50, some (str "a"), str "Other", "USD", some false, str "z1"⟩,
   ⟨2, 7, str "amy", ⟨3, 0⟩, 50, some (str "b"), str "Income - Other", "USD", some true, str "z2"⟩]

/-- Two unprocessed rows with equal timestamps (ids break the tie) and one
amount-less command row. -/
def wRow1 : StagedRow :=
  ⟨1, 7, str "amy", str "lunch 20", "expense", some 20, "USD", some (str "lunch"),
    some false, false, ⟨5, 1⟩⟩

def wRow2 : StagedRow :=
  ⟨2, 7, str "amy", str "coffee 5.50", "expense", some ((11 : ℚ) / 2), "USD",
    some (str "coffee"), some false, false, ⟨5, 1⟩⟩

def wRow3 : StagedRow :=
  ⟨3, 7, str "amy", str "/undo", "undo_request", none, "USD", none, some false, false, ⟨5, 2⟩⟩

def wStore : MyceliumStore := ⟨[wRow1, wRow2, wRow3], 4⟩

/-- Later client activity: another append and another mark. -/
def wOps : List StoreOp :=
  [StoreOp.append 7 (str "amy") ⟨9, 0⟩ (commandFields (str "/undo") "undo_request"),
   StoreOp.mark [2]]

/-- Environment whose classification service answers 200 with a label
outside the fixed category set. -/
def oracleBanana : Nat → RowOracle := fun _ => ⟨SvcResp.http 200 (str "Banana"), true, true⟩

instance (s : MyceliumStore) : Decidable (wfStore s) :=
  inferInstanceAs (Decidable (List.Pairwise (· < ·) (s.rows.map (fun r : StagedRow => r.id)) ∧
    ∀ r ∈ s.rows, r.id < s.next_id))

instance : DecidableRel rowLt := fun a b =>
  inferInstanceAs (Decidable (a.created_at.day < b.created_at.day ∨
    (a.created_at.day = b.created_at.day ∧
      (a.created_at.tod < b.created_at.tod ∨
        (a.created_at.tod = b.created_at.tod ∧ a.id < b.id)))))

instance (v : ℚ) : Decidable (isCents v) := by
  unfold isCents
  exact decidable_of_iff ((v * 100).den = 1 ∧ 0 ≤ v) (by
    constructor
    · rintro ⟨hden, hpos⟩
      refine ⟨(v * 100).num.toNat, ?_⟩
      have hnum : ((v * 100).num : ℚ) = v * 100 := by
        rw [← Rat.den_eq_one_iff]; exact hden
      have hnn : 0 ≤ (v * 100).num := by
        rw [Rat.num_nonneg]
        positivity
      rw [show (((v * 100).num.toNat : ℕ) : ℚ) = v * 100 from by
        rw [← hnum]; exact_mod_cast Int.toNat_of_nonneg hnn]
      field_simp
    · rintro ⟨n, rfl⟩
      constructor
      · rw [div_mul_cancel₀]
        · simp
        · norm_num
      · positivity)

/-- The behaviour claim C10 asserts for a freshly staged placeholder row
(a correction staged with description `"CORRECTION"`, or an
amount-without-description message staged with `"NEEDS_CONTEXT"`): the
pending query returns the new row with its amount, placeholder
description and `is_income` intact; a successful Categorizer run writes
one ledger row for it carrying the placeholder description, the same
`is_income` and the validated category; the staged row ends processed;
and the run only appends to the ledger — every pre-existing ledger row
is left in place (no amend-the-previous-transaction logic). -/
def placeholderPipeline (ms : MyceliumStore) (uid : Nat) (un : List Char) (ts : Ts)
    (text : List Char) (ledger : List LedgerRow) (o : Nat → RowOracle) (body : List Char)
    (placeholder : List Char) (inc : Option Bool) (a : ℚ) : Prop :=
  (∃ rr ∈ get_pending_messages (process_financial_message ms uid un ts text),
    rr.id = ms.next_id ∧ rr.amount = some a ∧ rr.description = some placeholder ∧
      rr.is_income = inc) ∧
  (∃ t ∈ (process_pending_messages
      ⟨process_financial_message ms uid un ts text, ledger⟩ o).1.ledger,
    t.mycelium_id = ms.next_id ∧ t.description = some placeholder ∧
      t.is_income = inc ∧ t.category = validateCategory body inc) ∧
  (∀ rr ∈ (process_pending_messages
      ⟨process_financial_message ms uid un ts text, ledger⟩ o).1.mycelium.rows,
    rr.id = ms.next_id → rr.processed = true) ∧
  (∃ suffix, (process_pending_messages
      ⟨process_financial_message ms uid un ts text, ledger⟩ o).1.ledger =
    ledger ++ suffix)

/-! ## Helper lemmas: the staging store and its query -/

theorem mem_get_pending (s : MyceliumStore) (r : StagedRow) :
    r ∈ get_pending_messages s ↔
      r ∈ s.rows ∧ r.processed = false ∧ r.amount.isSome = true := by
  unfold get_pending_messages
  rw [List.mem_insertionSort, List.mem_filter]
  simp [Bool.and_eq_true, Bool.not_eq_true', and_assoc]

theorem pending_sorted (s : MyceliumStore) :
    List.Pairwise rowLe (get_pending_messages s) :=
  List.sorted_insertionSort rowLe _

theorem pending_pairwise_ne (s : MyceliumStore) (h : wfStore s) :
    List.Pairwise (fun a b : StagedRow => a.id ≠ b.id) (get_pending_messages s) := by
  have h1 : List.Pairwise (fun a b : StagedRow => a.id < b.id) s.rows :=
    List.pairwise_map.mp h.1
  have h2 : List.Pairwise (fun a b : StagedRow => a.id < b.id)
      (s.rows.filter (fun r => !r.processed && r.amount.isSome)) :=
    List.Pairwise.sublist (List.filter_sublist _) h1
  have h3 := (List.perm_insertionSort rowLe
    (s.rows.filter (fun r => !r.processed && r.amount.isSome))).pairwise_iff
    (R := fun a b : StagedRow => a.id ≠ b.id) (fun hxy => hxy.symm)
  exact h3.mpr (h2.imp (fun hab => Nat.ne_of_lt hab))

theorem pending_nodup (s : MyceliumStore) (h : wfStore s) :
    (get_pending_messages s).Nodup :=
  (pending_pairwise_ne s h).imp (fun hab => by intro heq; exact hab (by rw [heq]))

theorem eq_of_mem_pending_same_id (s : MyceliumStore) (h : wfStore s)
    {a b : StagedRow} (ha : a ∈ get_pending_messages s) (hb : b ∈ get_pending_messages s)
    (hid : a.id = b.id) : a = b := by
  have hne := pending_pairwise_ne s h
  rcases List.append_of_mem ha with ⟨l1, l2, hsplit⟩
  rw [hsplit] at hb hne
  rcases List.mem_append.mp hb with hb1 | hb2
  · exfalso
    have := (List.pairwise_append.mp hne).2.2
    exact this b hb1 a (List.mem_cons_self _ _) (by rw [hid])
  · rcases List.mem_cons.mp hb2 with hb3 | hb4
    · exact hb3.symm
    · exfalso
      have := List.pairwise_cons.mp (List.pairwise_append.mp hne).2.1
      exact this.1 b hb4 hid

theorem mark_processed_nil (s : MyceliumStore) : mark_processed s [] = s := by
  simp [mark_processed]

theorem mark_mark (s : MyceliumStore) (i : Nat) (ids : List Nat) :
    mark_processed (mark_processed s [i]) ids = mark_processed s (i :: ids) := by
  simp only [mark_processed, List.map_map]
  congr 1
  apply List.map_congr_left
  intro r _
  by_cases h1 : r.id = i
  · by_cases h2 : r.id ∈ ids <;>
      simp [Function.comp, h1, h2, List.mem_singleton, List.mem_cons]
  · by_cases h2 : r.id ∈ ids <;>
      simp [Function.comp, h1, h2, List.mem_singleton, List.mem_cons]

theorem mark_processed_rows_ids (s : MyceliumStore) (ids : List Nat) :
    (mark_processed s ids).rows.map (fun r => r.id) = s.rows.map (fun r => r.id) := by
  simp only [mark_processed, List.map_map]
  apply List.map_congr_left
  intro r _
  by_cases h : r.id ∈ ids <;> simp [Function.comp, h]

theorem mark_processed_next_id (s : MyceliumStore) (ids : List Nat) :
    (mark_processed s ids).next_id = s.next_id := rfl

theorem wf_mark_processed (s : MyceliumStore) (ids : List Nat) (h : wfStore s) :
    wfStore (mark_processed s ids) := by
  constructor
  · rw [mark_processed_rows_ids]; exact h.1
  · intro r hr
    simp only [mark_processed, List.mem_map] at hr
    obtain ⟨r0, hr0, hmap⟩ := hr
    have := h.2 r0 hr0
    by_cases hin : r0.id ∈ ids
    · rw [if_pos hin] at hmap; rw [← hmap]; exact this
    · rw [if_neg hin] at hmap; rw [← hmap]; exact this

theorem mark_processed_marks (s : MyceliumStore) (ids : List Nat) :
    ∀ r' ∈ (mark_processed s ids).rows, r'.id ∈ ids → r'.processed = true := by
  intro r' hr' hin
  simp only [mark_processed, List.mem_map] at hr'
  obtain ⟨r0, _, hmap⟩ := hr'
  by_cases h : r0.id ∈ ids
  · rw [if_pos h] at hmap; rw [← hmap]
  · rw [if_neg h] at hmap; rw [← hmap] at hin; exact absurd hin h

theorem mark_processed_preserves (s : MyceliumStore) (ids : List Nat) (i : Nat)
    (h : ∀ r ∈ s.rows, r.id = i → r.processed = true) :
    ∀ r' ∈ (mark_processed s ids).rows, r'.id = i → r'.processed = true := by
  intro r' hr' hid
  simp only [mark_processed, List.mem_map] at hr'
  obtain ⟨r0, hr0, hmap⟩ := hr'
  by_cases hin : r0.id ∈ ids
  · rw [if_pos hin] at hmap; rw [← hmap]
  · rw [if_neg hin] at hmap
    rw [← hmap] at hid ⊢
    exact h r0 hr0 hid

theorem mark_processed_skips (s : MyceliumStore) (ids : List Nat) :
    ∀ r ∈ s.rows, r.id ∉ ids → r ∈ (mark_processed s ids).rows := by
  intro r hr hnot
  simp only [mark_processed, List.mem_map]
  exact ⟨r, hr, by rw [if_neg hnot]⟩

/-! ## Helper lemmas: the categorizer loop -/

theorem rowInsert_mycelium_id (o : Nat → RowOracle) (r : StagedRow) (v : LedgerRow)
    (h : rowInsert o r = some v) : v.mycelium_id = r.id := by
  unfold rowInsert at h
  split at h
  · exact absurd h (by simp)
  · split at h
    · cases h; rfl
    · exact absurd h (by simp)

theorem rowInsert_saveOk (o : Nat → RowOracle) (r : StagedRow) (v : LedgerRow)
    (h : rowInsert o r = some v) : (o r.id).saveOk = true := by
  unfold rowInsert at h
  split at h
  · exact absurd h (by simp)
  · split at h
    · assumption
    · exact absurd h (by simp)

theorem rowInsert_none_of_categorize_none (o : Nat → RowOracle) (r : StagedRow)
    (h : categorize_transaction (o r.id).resp r.is_income = none) : rowInsert o r = none := by
  unfold rowInsert
  rw [h]

theorem rowMarked_eq_some (o : Nat → RowOracle) (r : StagedRow) (i : Nat)
    (h : rowMarked o r = some i) :
    i = r.id ∧ ∃ v, rowInsert o r = some v := by
  unfold rowMarked at h
  split at h
  case h_1 v hv =>
    split at h
    · cases h; exact ⟨rfl, v, hv⟩
    · exact absurd h (by simp)
  case h_2 => exact absurd h (by simp)

theorem rowMarked_of_insert (o : Nat → RowOracle) (r : StagedRow) (v : LedgerRow)
    (hv : rowInsert o r = some v) (hm : (o r.id).markOk = true) :
    rowMarked o r = some r.id := by
  unfold rowMarked
  rw [hv, if_pos hm]

/-- The state and trace of one full run, decomposed per row: the loop
visits every fetched row, the ledger receives exactly the per-row inserts
in order, and the staged rows marked are exactly the per-row marks. -/
theorem runLoop_split (o : Nat → RowOracle) :
    ∀ (rows : List StagedRow) (st : TreeState),
      runLoop o st rows =
        ({ mycelium := mark_processed st.mycelium (rows.filterMap (rowMarked o)),
           ledger := st.ledger ++ rows.filterMap (rowInsert o) },
         rows.flatMap (rowEvents o)) := by
  intro rows
  induction rows with
  | nil =>
    intro st
    simp [runLoop, mark_processed_nil]
  | cons r rest ih =>
    intro st
    have hstep : runLoop o st (r :: rest) =
        ((runLoop o (processRow st o r).1 rest).1,
          (processRow st o r).2 ++ (runLoop o (processRow st o r).1 rest).2) := rfl
    rw [hstep]
    cases hc : categorize_transaction (o r.id).resp r.is_income with
    | none =>
      have hIns : rowInsert o r = none := rowInsert_none_of_categorize_none o r hc
      have hMar : rowMarked o r = none := by unfold rowMarked; rw [hIns]
      have hEvs : rowEvents o r = [] := by unfold rowEvents; rw [hc]
      have prow : processRow st o r = (st, []) := by unfold processRow; rw [hc]
      rw [prow]
      rw [ih]
      simp [hIns, hMar, hEvs]
    | some cat =>
      by_cases hs : (o r.id).saveOk = true
      · have hIns : rowInsert o r = some (ledgerRowOf r cat) := by
          unfold rowInsert; rw [hc]; simp [hs]
        by_cases hm : (o r.id).markOk = true
        · have hMar : rowMarked o r = some r.id := rowMarked_of_insert o r _ hIns hm
          have hEvs : rowEvents o r = [Ev.insert r.id, Ev.mark r.id] := by
            unfold rowEvents; rw [hc]; simp [hs, hm]
          have prow : processRow st o r =
              ({ mycelium := mark_processed st.mycelium [r.id],
                 ledger := st.ledger ++ [ledgerRowOf r cat] }, [Ev.insert r.id, Ev.mark r.id]) := by
            unfold processRow; rw [hc]; simp [hs, hm]
          rw [prow]
          rw [ih]
          simp [hIns, hMar, hEvs, mark_mark]
        · have hMar : rowMarked o r = none := by
            unfold rowMarked; rw [hIns, if_neg hm]
          have hEvs : rowEvents o r = [Ev.insert r.id] := by
            unfold rowEvents; rw [hc]; simp [hs, hm]
          have prow : processRow st o r =
              ({ mycelium := st.mycelium, ledger := st.ledger ++ [ledgerRowOf r cat] },
                [Ev.insert r.id]) := by
            unfold processRow; rw [hc]; simp [hs, hm]
          rw [prow]
          rw [ih]
          simp [hIns, hMar, hEvs]
      · have hIns : rowInsert o r = none := by
          unfold rowInsert; rw [hc]; simp [hs]
        have hMar : rowMarked o r = none := by unfold rowMarked; rw [hIns]
        have hEvs : rowEvents o r = [] := by unfold rowEvents; rw [hc]; simp [hs]
        have prow : processRow st o r = (st, []) := by
          unfold processRow; rw [hc]; simp [hs]
        rw [prow]
        rw [ih]
        simp [hIns, hMar, hEvs]

/-- `process_pending_messages`, decomposed per fetched row. -/
theorem run_split (st : TreeState) (o : Nat → RowOracle) :
    process_pending_messages st o =
      ({ mycelium := mark_processed st.mycelium
           ((get_pending_messages st.mycelium).filterMap (rowMarked o)),
         ledger := st.ledger ++ (get_pending_messages st.mycelium).filterMap (rowInsert o) },
       (get_pending_messages st.mycelium).flatMap (rowEvents o)) :=
  runLoop_split o _ st

/-! ## Helper lemmas: counting ledger rows per staged id -/

theorem ledgerCount_append (a b : List LedgerRow) (i : Nat) :
    ledgerCount (a ++ b) i = ledgerCount a i + ledgerCount b i := by
  simp [ledgerCount, List.filter_append]

theorem insert_count_le (o : Nat → RowOracle) (i : Nat) :
    ∀ rows : List StagedRow,
      ledgerCount (rows.filterMap (rowInsert o)) i ≤
        ((rows.filter (fun r => r.id = i)).length) := by
  intro rows
  induction rows with
  | nil => simp [ledgerCount]
  | cons r rest ih =>
    have ih' := ih
    unfold ledgerCount at ih' ⊢
    cases hv : rowInsert o r with
    | none =>
      rw [List.filterMap_cons_none hv, List.filter_cons]
      by_cases hid : r.id = i
      · simp only [hid]
        simp
        omega
      · simp [hid]
        exact ih'
    | some v =>
      have hmid := rowInsert_mycelium_id o r v hv
      rw [List.filterMap_cons_some hv, List.filter_cons, List.filter_cons]
      by_cases hid : r.id = i
      · have h2 : v.mycelium_id = i := by rw [hmid, hid]
        simp [hid, h2]
        omega
      · have h2 : ¬v.mycelium_id = i := by rw [hmid]; exact hid
        simp [hid, h2]
        exact ih'

theorem filter_id_length_le_one (i : Nat) :
    ∀ rows : List StagedRow,
      List.Pairwise (fun a b : StagedRow => a.id ≠ b.id) rows →
      (rows.filter (fun r => r.id = i)).length ≤ 1 := by
  intro rows
  induction rows with
  | nil => simp
  | cons r rest ih =>
    intro hp
    have hp' := List.pairwise_cons.mp hp
    rw [List.filter_cons]
    by_cases hid : r.id = i
    · have hrest : rest.filter (fun r => r.id = i) = [] := by
        rw [List.filter_eq_nil_iff]
        intro b hb
        simp only [decide_eq_true_eq]
        intro hbid
        exact hp'.1 b hb (by rw [hid, hbid])
      simp [hid, hrest]
    · simp [hid]
      exact ih hp'.2

theorem exists_insert_of_count_pos (o : Nat → RowOracle) (i : Nat)
    (rows : List StagedRow)
    (h : 1 ≤ ledgerCount (rows.filterMap (rowInsert o)) i) :
    ∃ r ∈ rows, r.id = i ∧ ∃ v, rowInsert o r = some v := by
  unfold ledgerCount at h
  have hne : (rows.filterMap (rowInsert o)).filter (fun t => t.mycelium_id = i) ≠ [] := by
    intro heq; rw [heq] at h; simp at h
  obtain ⟨t, ht⟩ := List.exists_mem_of_ne_nil _ hne
  have ht' := List.mem_filter.mp ht
  obtain ⟨r, hr, hrt⟩ := List.mem_filterMap.mp ht'.1
  refine ⟨r, hr, ?_, t, hrt⟩
  have := rowInsert_mycelium_id o r t hrt
  have h2 : t.mycelium_id = i := by simpa using ht'.2
  rw [← this, h2]

/-! ## Helper lemmas: one run preserves the at-most-once invariant -/

theorem run_ledger (st : TreeState) (o : Nat → RowOracle) :
    (process_pending_messages st o).1.ledger =
      st.ledger ++ (get_pending_messages st.mycelium).filterMap (rowInsert o) := by
  rw [run_split]

theorem run_mycelium (st : TreeState) (o : Nat → RowOracle) :
    (process_pending_messages st o).1.mycelium =
      mark_processed st.mycelium
        ((get_pending_messages st.mycelium).filterMap (rowMarked o)) := by
  rw [run_split]

theorem run_events (st : TreeState) (o : Nat → RowOracle) :
    (process_pending_messages st o).2 =
      (get_pending_messages st.mycelium).flatMap (rowEvents o) := by
  rw [run_split]

theorem wf_run (st : TreeState) (o : Nat → RowOracle) (h : wfStore st.mycelium) :
    wfStore (process_pending_messages st o).1.mycelium := by
  rw [run_mycelium]
  exact wf_mark_processed _ _ h

theorem run_inv (st : TreeState) (o : Nat → RowOracle)
    (hwf : wfStore st.mycelium)
    (ho : ∀ id, (o id).saveOk = true → (o id).markOk = true)
    (i : Nat)
    (h1 : ledgerCount st.ledger i ≤ 1)
    (h2 : 1 ≤ ledgerCount st.ledger i →
      ∀ r ∈ st.mycelium.rows, r.id = i → r.processed = true) :
    ledgerCount (process_pending_messages st o).1.ledger i ≤ 1 ∧
      (1 ≤ ledgerCount (process_pending_messages st o).1.ledger i →
        ∀ r ∈ (process_pending_messages st o).1.mycelium.rows,
          r.id = i → r.processed = true) := by
  have hL := run_ledger st o
  have hM := run_mycelium st o
  by_cases hpi : ∃ r ∈ get_pending_messages st.mycelium, r.id = i
  · obtain ⟨r, hrp, hri⟩ := hpi
    have hrow := (mem_get_pending _ _).mp hrp
    have hzero : ledgerCount st.ledger i = 0 := by
      by_contra hnz
      have hone : 1 ≤ ledgerCount st.ledger i := Nat.one_le_iff_ne_zero.mpr hnz
      have := h2 hone r hrow.1 hri
      rw [hrow.2.1] at this
      exact absurd this (by simp)
    have hle1 : ledgerCount
        ((get_pending_messages st.mycelium).filterMap (rowInsert o)) i ≤ 1 :=
      le_trans (insert_count_le o i _)
        (filter_id_length_le_one i _ (pending_pairwise_ne _ hwf))
    constructor
    · rw [hL, ledgerCount_append]
      omega
    · intro hge r' hr' hid'
      rw [hL, ledgerCount_append, hzero] at hge
      have hpos : 1 ≤ ledgerCount
          ((get_pending_messages st.mycelium).filterMap (rowInsert o)) i := by omega
      obtain ⟨r2, hr2p, hr2i, v, hv⟩ := exists_insert_of_count_pos o i _ hpos
      have hsave := rowInsert_saveOk o r2 v hv
      have hmark := ho r2.id hsave
      have hmarked := rowMarked_of_insert o r2 v hv hmark
      have hmem : r2.id ∈ (get_pending_messages st.mycelium).filterMap (rowMarked o) :=
        List.mem_filterMap.mpr ⟨r2, hr2p, hmarked⟩
      rw [hM] at hr'
      exact mark_processed_marks _ _ r' hr' (by rw [hid', ← hr2i]; exact hmem)
  · push_neg at hpi
    have hfil : (get_pending_messages st.mycelium).filter (fun r => r.id = i) = [] := by
      rw [List.filter_eq_nil_iff]
      intro b hb
      simpa using hpi b hb
    have hzero2 : ledgerCount
        ((get_pending_messages st.mycelium).filterMap (rowInsert o)) i = 0 := by
      have := insert_count_le o i (get_pending_messages st.mycelium)
      rw [hfil] at this
      simpa using this
    constructor
    · rw [hL, ledgerCount_append, hzero2]
      omega
    · intro hge r' hr' hid'
      rw [hL, ledgerCount_append, hzero2] at hge
      rw [hM] at hr'
      exact mark_processed_preserves _ _ i (h2 (by omega)) r' hr' hid'

/-! ## Claim C1 -/

/-- C1 (counterexample).  The claim asserts at-most-one ledger row per
staged id across any number of Categorizer runs, *including* a re-run
after a failed mark-processed.  On the code this fails: the `transactions`
schema has no uniqueness constraint on `mycelium_id` and
`save_processed_transaction` is a plain `INSERT`, so a run whose ledger
insert commits but whose mark-processed write fails leaves the row
unprocessed, and the re-run inserts a second ledger row with the same
`mycelium_id`.  Concretely: one staged message (id 1), first run with a
failed mark-processed, second run fully successful, ends with two ledger
rows for staged id 1. -/
theorem c1_counterexample :
    ledgerCount (runMany cxState [oracleSaveNoMark, oracleAllOk]).ledger 1 = 2 ∧
      ¬ledgerCount (runMany cxState [oracleSaveNoMark, oracleAllOk]).ledger 1 ≤ 1 := by
  decide

/-- C1 (amended).  Provided that in every run the mark-processed write
succeeds whenever the ledger insert for that row succeeded (no crash and
no failure between the two durable writes), running the Categorizer loop
any number of times yields at most one ledger row per staged id, starting
from any state already satisfying the invariant (in particular from an
empty ledger).  Without that proviso duplicates are possible
(`c1_counterexample`): the ledger schema has no uniqueness constraint on
`staged_message_id`. -/
theorem c1_amended :
    ∀ (os : List (Nat → RowOracle)) (st : TreeState),
      wfStore st.mycelium →
      (∀ o ∈ os, ∀ id, (o id).saveOk = true → (o id).markOk = true) →
      ∀ i, ledgerCount st.ledger i ≤ 1 →
        (1 ≤ ledgerCount st.ledger i →
          ∀ r ∈ st.mycelium.rows, r.id = i → r.processed = true) →
        ledgerCount (runMany st os).ledger i ≤ 1 := by
  intro os
  induction os with
  | nil =>
    intro st hwf ho i h1 h2
    simpa [runMany] using h1
  | cons o os ih =>
    intro st hwf ho i h1 h2
    have hstep := run_inv st o hwf (ho o (List.mem_cons_self o os)) i h1 h2
    have hwf' := wf_run st o hwf
    have hfold : runMany st (o :: os) = runMany (process_pending_messages st o).1 os := by
      simp [runMany]
    rw [hfold]
    exact ih _ hwf' (fun o' ho' => ho o' (List.mem_cons_of_mem o ho')) i hstep.1 hstep.2

/-- C1 witness: two fully successful runs over one staged message leave
exactly at most one ledger row for it. -/
theorem c1_witness :
    ledgerCount (runMany cxState [oracleAllOk, oracleAllOk]).ledger 1 ≤ 1 := by
  refine c1_amended [oracleAllOk, oracleAllOk] cxState (by decide) ?_ 1 (by decide) (by decide)
  intro o ho id hs
  rcases List.mem_cons.mp ho with h | h
  · subst h; rfl
  · rcases List.mem_cons.mp h with h2 | h2
    · subst h2; rfl
    · simp at h2

/-! ## Claim C2 -/

/-- C2.  In one Categorizer run: the trace decomposes row by row over the
whole fetched batch (each row's contribution a function of its own oracle
only, so one row's failure never aborts the rest); the ledger receives
exactly the per-row inserts; a mark-processed event occurs only with the
row's ledger insert strictly before it in the trace; and a row whose
categorization fails (connection error or non-200 response) contributes
no ledger row and remains unprocessed. -/
theorem c2_insert_before_mark :
    ∀ (st : TreeState) (o : Nat → RowOracle),
      wfStore st.mycelium →
      (process_pending_messages st o).2 =
          (get_pending_messages st.mycelium).flatMap (rowEvents o) ∧
        (process_pending_messages st o).1.ledger =
          st.ledger ++ (get_pending_messages st.mycelium).filterMap (rowInsert o) ∧
        (∀ i, Ev.mark i ∈ (process_pending_messages st o).2 →
          List.Sublist [Ev.insert i, Ev.mark i] (process_pending_messages st o).2) ∧
        (∀ r ∈ get_pending_messages st.mycelium,
          categorize_transaction (o r.id).resp r.is_income = none →
            (∀ t ∈ (process_pending_messages st o).1.ledger,
              t.mycelium_id = r.id → t ∈ st.ledger) ∧
            (∃ r' ∈ (process_pending_messages st o).1.mycelium.rows,
              r'.id = r.id ∧ r'.processed = false)) := by
  intro st o hwf
  refine ⟨run_events st o, run_ledger st o, ?_, ?_⟩
  · intro i hmark
    rw [run_events] at hmark ⊢
    obtain ⟨r, hr, hev⟩ := List.mem_flatMap.mp hmark
    have hre : i = r.id ∧ rowEvents o r = [Ev.insert r.id, Ev.mark r.id] := by
      cases hc : categorize_transaction (o r.id).resp r.is_income with
      | none =>
        exfalso
        unfold rowEvents at hev
        rw [hc] at hev
        simp at hev
      | some cat =>
        by_cases hs : (o r.id).saveOk = true
        · by_cases hm : (o r.id).markOk = true
          · have heq : rowEvents o r = [Ev.insert r.id, Ev.mark r.id] := by
              unfold rowEvents
              rw [hc]
              simp [hs, hm]
            rw [heq] at hev
            have : i = r.id := by
              rcases List.mem_cons.mp hev with h | h
              · exact absurd h (by simp)
              · rcases List.mem_cons.mp h with h2 | h2
                · cases h2; rfl
                · simp at h2
            exact ⟨this, heq⟩
          · exfalso
            have heq : rowEvents o r = [Ev.insert r.id] := by
              unfold rowEvents
              rw [hc]
              simp [hs, hm]
            rw [heq] at hev
            rcases List.mem_cons.mp hev with h | h
            · exact absurd h (by simp)
            · simp at h
        · exfalso
          have heq : rowEvents o r = [] := by
            unfold rowEvents
            rw [hc]
            simp [hs]
          rw [heq] at hev
          simp at hev
    obtain ⟨l1, l2, hsplit⟩ := List.append_of_mem hr
    rw [hsplit, List.flatMap_append, List.flatMap_cons, hre.1, hre.2]
    rw [← List.append_assoc]
    exact (List.infix_append _ _ _).sublist
  · intro r hr hfail
    have hnone : rowInsert o r = none := rowInsert_none_of_categorize_none o r hfail
    constructor
    · intro t ht hmid
      rw [run_ledger] at ht
      rcases List.mem_append.mp ht with h | h
      · exact h
      · exfalso
        obtain ⟨r2, hr2, hv⟩ := List.mem_filterMap.mp h
        have : r2 = r := eq_of_mem_pending_same_id st.mycelium hwf hr2 hr
          (by rw [← hmid]; exact (rowInsert_mycelium_id o r2 t hv).symm)
        rw [this, hnone] at hv
        exact absurd hv (by simp)
    · have hrow := (mem_get_pending _ _).mp hr
      refine ⟨r, ?_, rfl, hrow.2.1⟩
      rw [run_mycelium]
      apply mark_processed_skips
      · exact hrow.1
      · intro hmem
        obtain ⟨r2, hr2, hmk⟩ := List.mem_filterMap.mp hmem
        obtain ⟨hid2, v, hv⟩ := rowMarked_eq_some o r2 r.id hmk
        have : r2 = r := eq_of_mem_pending_same_id st.mycelium hwf hr2 hr hid2.symm
        rw [this, hnone] at hv
        exact absurd hv (by simp)

/-- C2 witness: one staged row, service unreachable — the trace is empty,
no ledger row is written, and the row stays unprocessed. -/
theorem c2_witness :
    wfStore cxState.mycelium ∧
      (process_pending_messages cxState oracleConnErr).2 = [] ∧
      (∀ t ∈ (process_pending_messages cxState oracleConnErr).1.ledger,
          t.mycelium_id = cxRow.id → t ∈ cxState.ledger) ∧
      (∃ r' ∈ (process_pending_messages cxState oracleConnErr).1.mycelium.rows,
        r'.id = cxRow.id ∧ r'.processed = false) := by
  have h := c2_insert_before_mark cxState oracleConnErr (by decide)
  have hmem : cxRow ∈ get_pending_messages cxState.mycelium := by
    rw [mem_get_pending]
    exact ⟨List.mem_singleton.mpr rfl, rfl, rfl⟩
  have hfail : categorize_transaction (oracleConnErr cxRow.id).resp cxRow.is_income = none := rfl
  have hc := h.2.2.2 cxRow hmem hfail
  exact ⟨by decide, h.1.trans (by decide), hc.1, hc.2⟩

/-! ## Claim C3 -/

theorem inv_applyOp (i : Nat) (s : MyceliumStore)
    (h1 : ∀ r ∈ s.rows, r.id = i → r.processed = true) (h2 : i < s.next_id) :
    ∀ op : StoreOp,
      (∀ r ∈ (applyOp s op).rows, r.id = i → r.processed = true) ∧
        i < (applyOp s op).next_id := by
  intro op
  cases op with
  | append uid un ts f =>
    constructor
    · intro r hr hid
      simp only [applyOp, store_message, List.mem_append, List.mem_singleton] at hr
      rcases hr with hr | hr
      · exact h1 r hr hid
      · rw [hr] at hid
        simp at hid
        omega
    · simp only [applyOp, store_message]
      omega
  | mark ids =>
    exact ⟨mark_processed_preserves s ids i h1, h2⟩

theorem inv_applyOps (i : Nat) :
    ∀ (ops : List StoreOp) (s : MyceliumStore),
      (∀ r ∈ s.rows, r.id = i → r.processed = true) → i < s.next_id →
      ∀ r ∈ (applyOps s ops).rows, r.id = i → r.processed = true := by
  intro ops
  induction ops with
  | nil => intro s h1 _; simpa [applyOps] using h1
  | cons op rest ih =>
    intro s h1 h2
    have hstep := inv_applyOp i s h1 h2 op
    have : applyOps s (op :: rest) = applyOps (applyOp s op) rest := by
      simp [applyOps]
    rw [this]
    exact ih (applyOp s op) hstep.1 hstep.2

/-- C3.  For a well-formed staging store: the pending query returns
exactly the unprocessed rows carrying an amount (rows with a `NULL`
amount — commands, undo requests, amount-less unclear messages — are
stored but never returned); each such row exactly once; in ascending
`created_at` order with ties on equal timestamps broken by ascending
insertion id; and once an existing row's id has been marked processed, no
sequence of later appends or marks ever makes the query return that id
again. -/
theorem c3_fetch_unprocessed :
    ∀ s : MyceliumStore, wfStore s →
      (∀ r : StagedRow, r ∈ get_pending_messages s ↔
        (r ∈ s.rows ∧ r.processed = false ∧ r.amount.isSome = true)) ∧
      (∀ r ∈ get_pending_messages s, List.count r (get_pending_messages s) = 1) ∧
      List.Pairwise rowLt (get_pending_messages s) ∧
      (∀ i, i < s.next_id →
        ∀ ops : List StoreOp,
          ∀ r ∈ get_pending_messages (applyOps (mark_processed s [i]) ops), r.id ≠ i) := by
  intro s hwf
  refine ⟨mem_get_pending s, ?_, ?_, ?_⟩
  · intro r hr
    exact List.count_eq_one_of_mem (pending_nodup s hwf) hr
  · have hle := pending_sorted s
    have hne := pending_pairwise_ne s hwf
    refine (hle.and hne).imp ?_
    intro a b hab
    obtain ⟨hab1, hab2⟩ := hab
    unfold rowLe at hab1
    unfold rowLt
    rcases Nat.lt_or_ge a.id b.id with h | h
    · omega
    · omega
  · intro i hi ops r hr hid
    have hbase : ∀ r0 ∈ (mark_processed s [i]).rows, r0.id = i → r0.processed = true := by
      intro r0 hr0 hid0
      exact mark_processed_marks s [i] r0 hr0 (by rw [hid0]; exact List.mem_singleton.mpr rfl)
    have hproc := inv_applyOps i ops (mark_processed s [i]) hbase hi r
      ((mem_get_pending _ _).mp hr).1 hid
    have hunproc := ((mem_get_pending _ _).mp hr).2.1
    rw [hproc] at hunproc
    exact absurd hunproc (by simp)

/-- C3 witness: a store with two unprocessed rows sharing a timestamp and
one amount-less undo row; after marking id 1 processed, later appends and
marks never surface id 1 again. -/
theorem c3_witness :
    wfStore wStore ∧
      (wRow1 ∈ get_pending_messages wStore ↔
        (wRow1 ∈ wStore.rows ∧ wRow1.processed = false ∧ wRow1.amount.isSome = true)) ∧
      List.count wRow1 (get_pending_messages wStore) = 1 ∧
      List.Pairwise rowLt (get_pending_messages wStore) ∧
      (∀ r ∈ get_pending_messages (applyOps (mark_processed wStore [1]) wOps), r.id ≠ 1) := by
  have hwf : wfStore wStore := by decide
  have h := c3_fetch_unprocessed wStore hwf
  have hmem : wRow1 ∈ get_pending_messages wStore := by
    rw [mem_get_pending]
    refine ⟨?_, rfl, rfl⟩
    simp [wStore]
  exact ⟨hwf, h.1 wRow1, h.2.1 wRow1 hmem, h.2.2.1, h.2.2.2 1 (by decide) wOps⟩

/-! ## Claim C4 -/

/-- C4.  The parser is total (every input yields one of the five staging
outcomes — the model of `parse_financial_text` is a Lean function, and
the source's catch-all `except` arm is dead because every embedded
operation is total), and in the worst case the message is staged
`unclear` with a `NULL` amount, a `NULL` description and the default
currency `USD`; concretely `"asdf"` is staged that way. -/
theorem c4_never_raises :
    (∀ s : List Char,
      ((stagedFieldsOf s).message_type = "correction" ∨
        (stagedFieldsOf s).message_type = "income" ∨
        (stagedFieldsOf s).message_type = "expense" ∨
        (stagedFieldsOf s).message_type = "unclear_amount" ∨
        (stagedFieldsOf s).message_type = "unclear") ∧
      ((stagedFieldsOf s).message_type = "unclear" →
        (stagedFieldsOf s).amount = none ∧ (stagedFieldsOf s).description = none ∧
          (stagedFieldsOf s).currency = "USD")) ∧
    stagedFieldsOf (str "asdf") =
      ⟨str "asdf", "unclear", none, "USD", none, some false⟩ := by
  constructor
  · intro s
    simp only [stagedFieldsOf]
    split
    · exact ⟨by simp, fun h => by simp at h⟩
    · split
      · constructor
        · by_cases hinc : (parse_financial_text s).is_income.getD false = true <;>
            simp [hinc]
        · intro h
          by_cases hinc : (parse_financial_text s).is_income.getD false = true <;>
            simp [hinc] at h
      · split
        · exact ⟨by simp, fun h => by simp at h⟩
        · exact ⟨by simp, fun _ => ⟨rfl, rfl, rfl⟩⟩
  · decide

/-! ## Claim C5 -/

/-- C5.  Whenever the first correction pattern (a trigger phrase followed
by a decimal amount) matches the cleaned, lower-cased text, the parser
returns the correction result with that amount and `is_income = None` —
before and regardless of income-vs-expense classification, which the
correction branch never invokes. -/
theorem c5_correction_first :
    ∀ (s : List Char) (a : ℚ),
      corrPat1 (lowerS (detect_currency (pyStrip s)).2) = some a →
      parse_financial_text s =
        ⟨some a, some (str "CORRECTION"), (detect_currency (pyStrip s)).1, none,
          ParseTag.correction⟩ := by
  intro s a h
  have hca : corrAmount (lowerS (detect_currency (pyStrip s)).2) = some a := by
    unfold corrAmount
    rw [h]
    rfl
  simp only [parse_financial_text, hca]

unseal Rat.add Rat.mul Rat.inv Rat.sub in
/-- C5 witness: `parse("Actually 12.50")` is a correction of amount 12.50
with `is_income = None`. -/
theorem c5_witness :
    corrPat1 (lowerS (detect_currency (pyStrip (str "Actually 12.50"))).2) =
        some ((25 : ℚ) / 2) ∧
      parse_financial_text (str "Actually 12.50") =
        ⟨some ((25 : ℚ) / 2), some (str "CORRECTION"), "USD", none, ParseTag.correction⟩ := by
  have h1 : corrPat1 (lowerS (detect_currency (pyStrip (str "Actually 12.50"))).2) =
      some ((25 : ℚ) / 2) := by decide
  have h2 := c5_correction_first (str "Actually 12.50") ((25 : ℚ) / 2) h1
  exact ⟨h1, by rw [h2]; decide⟩

/-! ## Claim C6 -/

theorem findSome?_first_success {α β : Type} (f : α → Option β) :
    ∀ (l : List α) (x : β), l.findSome? f = some x →
      ∃ i, ∃ hi : i < l.length, f (l.get ⟨i, hi⟩) = some x ∧
        ∀ j, ∀ hj : j < i, f (l.get ⟨j, Nat.lt_trans hj hi⟩) = none := by
  intro l
  induction l with
  | nil => intro x h; simp [List.findSome?] at h
  | cons a l ih =>
    intro x h
    cases hfa : f a with
    | some b =>
      simp only [List.findSome?_cons, hfa] at h
      refine ⟨0, Nat.succ_pos _, ?_, ?_⟩
      · rw [show (a :: l).get ⟨0, Nat.succ_pos _⟩ = a from rfl, hfa, h]
      · intro j hj
        omega
    | none =>
      simp only [List.findSome?_cons, hfa] at h
      obtain ⟨i, hi, hfi, hprev⟩ := ih x h
      refine ⟨i + 1, Nat.succ_lt_succ hi, hfi, ?_⟩
      intro j hj
      cases j with
      | zero => exact hfa
      | succ j' => exact hprev j' (Nat.lt_of_succ_lt_succ hj)

theorem parse_correction_shape (s : List Char)
    (h : (parse_financial_text s).tag = ParseTag.correction) :
    ∃ a : ℚ, parse_financial_text s =
      ⟨some a, some (str "CORRECTION"), (detect_currency (pyStrip s)).1, none,
        ParseTag.correction⟩ := by
  cases hca : corrAmount (lowerS (detect_currency (pyStrip s)).2) with
  | some a =>
    refine ⟨a, ?_⟩
    simp only [parse_financial_text, hca]
  | none =>
    exfalso
    cases hp : extractionPatterns.findSome?
        (fun p => p (lowerS (detect_currency (pyStrip s)).2)) with
    | some ag =>
      simp only [parse_financial_text, hca, hp] at h
      exact absurd h (by simp)
    | none =>
      simp only [parse_financial_text, hca, hp] at h
      exact absurd h (by simp)

unseal Rat.add Rat.mul Rat.inv Rat.sub in
/-- C6 (counterexample).  The claim says the first pattern yielding both
a positive amount and a non-empty description wins.  On `"earned 100"`
the spec-following selection (`specFirstBothPattern`) skips pattern 1
(empty description) and yields `(100, "earned")` from pattern 5, but the
code stops at pattern 1 — the first pattern that *matches* — returning
amount 100 with the empty description, so the message is staged
`unclear_amount`, not as a transaction with description `"earned"`. -/
theorem c6_counterexample :
    specFirstBothPattern (str "earned 100") = some (100, str "earned") ∧
      parse_financial_text (str "earned 100") =
        ⟨some 100, some [], "USD", some true, ParseTag.conf 3⟩ ∧
      stagedFieldsOf (str "earned 100") =
        ⟨str "earned 100", "unclear_amount", some 100, "USD",
          some (str "NEEDS_CONTEXT"), some true⟩ ∧
      (some [] : Option (List Char)) ≠ some (str "earned") := by
  exact ⟨by decide, by decide, by decide, by decide⟩

/-- C6 (amended).  In the extraction loop the first pattern that
*matches* wins, regardless of whether its description is empty or its
amount zero (`findSome?` returns the first success, all earlier patterns
returning `none`); if the winning match carries a (truthy) amount but no
usable description, the message is staged `kind=unclear_amount` with that
bare amount as a hint; if no pattern matches at all, the message is
staged `unclear` with a `NULL` amount. -/
theorem c6_amended :
    (∀ (t : List Char) (x : ℚ × List Char),
      extractionPatterns.findSome? (fun p => p t) = some x →
        ∃ i, ∃ hi : i < extractionPatterns.length,
          (extractionPatterns.get ⟨i, hi⟩) t = some x ∧
          ∀ j, ∀ hj : j < i, (extractionPatterns.get ⟨j, Nat.lt_trans hj hi⟩) t = none) ∧
    (∀ (s : List Char) (a : ℚ),
      (parse_financial_text s).tag ≠ ParseTag.correction →
      (parse_financial_text s).amount = some a →
      truthyQ (some a) = true →
      truthyD (parse_financial_text s).description = false →
      (stagedFieldsOf s).message_type = "unclear_amount" ∧
        (stagedFieldsOf s).amount = some a) ∧
    (∀ s : List Char,
      (parse_financial_text s).amount = none →
      (stagedFieldsOf s).message_type = "unclear" ∧ (stagedFieldsOf s).amount = none) := by
  refine ⟨fun t => findSome?_first_success (fun p => p t) extractionPatterns, ?_, ?_⟩
  · intro s a htag hamt htr hde
    simp only [stagedFieldsOf]
    rw [if_neg htag, hamt, htr, hde]
    simp
  · intro s hnone
    have htag : (parse_financial_text s).tag ≠ ParseTag.correction := by
      intro h
      obtain ⟨a, ha⟩ := parse_correction_shape s h
      rw [ha] at hnone
      simp at hnone
    simp only [stagedFieldsOf]
    rw [if_neg htag, hnone]
    simp [truthyQ]

unseal Rat.add Rat.mul Rat.inv Rat.sub in
/-- C6 witness: the amended unclear-amount branch at `"earned 100"`. -/
theorem c6_witness :
    (stagedFieldsOf (str "earned 100")).message_type = "unclear_amount" ∧
      (stagedFieldsOf (str "earned 100")).amount = some 100 :=
  c6_amended.2.1 (str "earned 100") 100 (by decide) (by decide) (by decide) (by decide)

/-! ## Claim C7 -/

theorem sum_split_signed :
    ∀ l : List LedgerRow,
      ((l.filter (fun t => incTruthy t.is_income)).map (fun t => t.amount)).sum -
        ((l.filter (fun t => !incTruthy t.is_income)).map (fun t => t.amount)).sum =
        (l.map (fun t => if incTruthy t.is_income then t.amount else -t.amount)).sum := by
  intro l
  induction l with
  | nil => simp
  | cons t l ih =>
    by_cases h : incTruthy t.is_income = true
    · simp [List.filter_cons, h]
      linarith [ih]
    · simp only [Bool.not_eq_true] at h
      simp [List.filter_cons, h]
      linarith [ih]

unseal Rat.add Rat.mul Rat.inv Rat.sub in
/-- C7 (counterexample).  The claim says totals are summed per-currency,
never mixing currencies in one total.  On a ledger holding a EUR 10
expense and a USD 20 expense (both in range) the code computes the single
total `total_expenses = 30`, which is the EUR total plus the USD total —
one mixed sum, not equal to either currency's own total (or to the zero
total of any other currency). -/
theorem c7_counterexample :
    (get_period_data mixLedger 0 10).total_expenses = 30 ∧
      specPerCurrencyExpenses mixLedger 0 10 "EUR" = 10 ∧
      specPerCurrencyExpenses mixLedger 0 10 "USD" = 20 ∧
      (get_period_data mixLedger 0 10).total_expenses =
        specPerCurrencyExpenses mixLedger 0 10 "EUR" +
          specPerCurrencyExpenses mixLedger 0 10 "USD" ∧
      (30 : ℚ) ≠ 10 ∧ (30 : ℚ) ≠ 20 ∧ (30 : ℚ) ≠ 0 := by
  exact ⟨by decide, by decide, by decide, by decide, by decide, by decide, by decide⟩

unseal Rat.add Rat.mul Rat.inv Rat.sub in
/-- C7 (amended).  The Aggregator selects exactly the ledger rows whose
timestamp date lies in `[start_date, end_date]` inclusive; `total_income`
is the sum of the amounts with truthy `is_income` and `total_expenses`
the sum of the rest, both summed over ALL selected rows regardless of
currency (currencies are mixed without conversion);
`net_position = total_income - total_expenses` (equivalently the signed
sum over the selection) and `transaction_count` is the number of selected
rows.  The claim's all-USD example week (expenses 10, 20, 30; income 100)
yields 60 / 100 / +40 / 4. -/
theorem c7_amended :
    (∀ (ledger : List LedgerRow) (s e : Nat),
      (get_period_data ledger s e).transactions = selectPeriod ledger s e ∧
      (get_period_data ledger s e).total_income =
        (((selectPeriod ledger s e).filter (fun t => incTruthy t.is_income)).map
          (fun t => t.amount)).sum ∧
      (get_period_data ledger s e).total_expenses =
        (((selectPeriod ledger s e).filter (fun t => !incTruthy t.is_income)).map
          (fun t => t.amount)).sum ∧
      (get_period_data ledger s e).net_position =
        (get_period_data ledger s e).total_income -
          (get_period_data ledger s e).total_expenses ∧
      (get_period_data ledger s e).transaction_count = (selectPeriod ledger s e).length ∧
      (get_period_data ledger s e).net_position =
        ((selectPeriod ledger s e).map
          (fun t => if incTruthy t.is_income then t.amount else -t.amount)).sum) ∧
    get_period_data usdLedger 1 7 = ⟨usdLedger, 100, 60, 40, 4⟩ := by
  constructor
  · intro ledger s e
    exact ⟨rfl, rfl, rfl, rfl, rfl, sum_split_signed (selectPeriod ledger s e)⟩
  · decide

/-! ## Claim C8 -/

/-- C8.  A period selecting zero ledger transactions produces no summary:
the result is `None` and the summary store is left untouched — while a
nonempty selection (even one summing to a zero net position) always
persists a summary row, so absence and zero are distinguishable. -/
theorem c8_absence_vs_zero :
    ∀ (store : List SummaryRow) (ledger : List LedgerRow) (pt pn : String) (s e : Nat),
      (selectPeriod ledger s e = [] →
        create_period_summary store ledger pt pn s e = (none, store)) ∧
      (selectPeriod ledger s e ≠ [] →
        ∃ row : SummaryRow,
          create_period_summary store ledger pt pn s e = (some row, upsertSummary store row) ∧
          row.net_position = (get_period_data ledger s e).net_position ∧
          row.transaction_count = (selectPeriod ledger s e).length) := by
  intro store ledger pt pn s e
  have htx : (get_period_data ledger s e).transactions = selectPeriod ledger s e := rfl
  constructor
  · intro h
    simp only [create_period_summary, htx, h]
    rfl
  · intro h
    have hne : (selectPeriod ledger s e).isEmpty = false := by
      rw [List.isEmpty_eq_false]
      exact h
    simp only [create_period_summary, htx, hne]
    exact ⟨_, rfl, rfl, rfl⟩

unseal Rat.add Rat.mul Rat.inv Rat.sub in
/-- C8 witness: an empty ledger yields no summary and an unchanged store;
a zero-net ledger (income 50, expense 50) yields a persisted summary with
net position 0. -/
theorem c8_witness :
    create_period_summary [] [] "weekly" "w1" 0 6 = (none, []) ∧
      (create_period_summary [] zeroNetLedger "weekly" "w1" 0 6).1.isSome = true ∧
      (get_period_data zeroNetLedger 0 6).net_position = 0 := by
  obtain ⟨row, h1, h2, h3⟩ :=
    (c8_absence_vs_zero [] zeroNetLedger "weekly" "w1" 0 6).2 (by decide)
  refine ⟨(c8_absence_vs_zero [] [] "weekly" "w1" 0 6).1 rfl, ?_, by decide⟩
  rw [h1]
  rfl

/-! ## Claim C9 -/

theorem orElse_eq_some {α : Type} (x : Option α) (f : Unit → Option α) (z : α)
    (h : x.orElse f = some z) : x = some z ∨ (x = none ∧ f () = some z) := by
  cases x with
  | some a => left; simpa [Option.orElse] using h
  | none => right; exact ⟨rfl, by simpa [Option.orElse] using h⟩

theorem isCents_ratInt (ds : List Char) : isCents (ratInt ds) := by
  refine ⟨100 * natOfDigits ds, ?_⟩
  unfold ratInt
  push_cast
  ring

theorem isCents_ratFrac (ds : List Char) (a b : Char) : isCents (ratFrac ds a b) := by
  refine ⟨100 * natOfDigits ds + (10 * (a.toNat - '0'.toNat) + (b.toNat - '0'.toNat)), ?_⟩
  unfold ratFrac
  push_cast
  ring

theorem numTryWith_sound {α : Type} (d1 rest : List Char) (k : List Char → ℚ → Option α)
    (x : α) (h : numTryWith d1 rest k = some x) :
    ∃ r v, isCents v ∧ k r v = some x := by
  unfold numTryWith at h
  rcases orElse_eq_some _ _ _ h with h1 | ⟨_, h2⟩
  · split at h1
    case h_1 a b r2 =>
      split at h1
      · exact ⟨r2, _, isCents_ratFrac d1 a b, h1⟩
      · exact absurd h1 (by simp)
    case h_2 => exact absurd h1 (by simp)
  · exact ⟨rest, _, isCents_ratInt d1, h2⟩

theorem numThenAux_sound {α : Type} (ds rest : List Char) (k : List Char → ℚ → Option α) :
    ∀ (j : Nat) (x : α), numThenAux ds rest k j = some x →
      ∃ r v, isCents v ∧ k r v = some x := by
  intro j
  induction j with
  | zero => intro x h; simp [numThenAux] at h
  | succ j ih =>
    intro x h
    unfold numThenAux at h
    rcases orElse_eq_some _ _ _ h with h1 | ⟨_, h2⟩
    · exact numTryWith_sound _ _ _ _ h1
    · exact ih x h2

theorem numThen_sound {α : Type} (s : List Char) (k : List Char → ℚ → Option α)
    (x : α) (h : numThen s k = some x) :
    ∃ r v, isCents v ∧ k r v = some x := by
  unfold numThen at h
  exact numThenAux_sound _ _ _ _ _ h

theorem searchPos_sound {α : Type} (f : List Char → Option α) (P : α → Prop)
    (hf : ∀ t x, f t = some x → P x) :
    ∀ (s : List Char) (x : α), searchPos f s = some x → P x := by
  intro s
  induction s with
  | nil => intro x h; exact hf [] x h
  | cons c t ih =>
    intro x h
    unfold searchPos at h
    rcases orElse_eq_some _ _ _ h with h1 | ⟨_, h2⟩
    · exact hf _ x h1
    · exact ih x h2

theorem altThen_sound {α : Type} (ws : List (List Char)) (s : List Char)
    (k : List Char → Option α) (x : α) (h : altThen ws s k = some x) :
    ∃ r, k r = some x := by
  unfold altThen at h
  obtain ⟨i, hi, hfi, _⟩ := findSome?_first_success _ _ _ h
  cases hw : litW (ws.get ⟨i, hi⟩) s with
  | none => rw [hw] at hfi; exact absurd hfi (by simp)
  | some r => rw [hw] at hfi; exact ⟨r, hfi⟩

theorem extractPat1_sound (t : List Char) (x : ℚ × List Char)
    (h : extractPat1 t = some x) : isCents x.1 := by
  refine searchPos_sound _ (fun x : ℚ × List Char => isCents x.1) ?_ t x h
  intro s y hy
  obtain ⟨r1, hr1⟩ := altThen_sound _ _ _ _ hy
  obtain ⟨r, v, hc, hk⟩ := numThen_sound _ _ _ hr1
  cases hk
  exact hc

theorem extractPat2_sound (t : List Char) (x : ℚ × List Char)
    (h : extractPat2 t = some x) : isCents x.1 := by
  refine searchPos_sound _ (fun x : ℚ × List Char => isCents x.1) ?_ t x h
  intro s y hy
  obtain ⟨r1, hr1⟩ := altThen_sound _ _ _ _ hy
  obtain ⟨r, v, hc, hk⟩ := numThen_sound _ _ _ hr1
  obtain ⟨r5, hk5⟩ := altThen_sound _ _ _ _ hk
  cases hk5
  exact hc

theorem extractPat3_sound (t : List Char) (x : ℚ × List Char)
    (h : extractPat3 t = some x) : isCents x.1 := by
  obtain ⟨r, v, hc, hk⟩ := numThen_sound _ _ _ h
  cases hsp : spacePlus r with
  | none => rw [hsp] at hk; exact absurd hk (by simp)
  | some r2 =>
    rw [hsp] at hk
    obtain ⟨r3, hk3⟩ := altThen_sound _ _ _ _ (by simpa using hk)
    cases hsp3 : spacePlus r3 with
    | none => rw [hsp3] at hk3; exact absurd hk3 (by simp)
    | some r4 =>
      rw [hsp3] at hk3
      have hx : (v, restOfLine r4) = x := by simpa using hk3
      cases hx
      exact hc

theorem extractPat4_sound (t : List Char) (x : ℚ × List Char)
    (h : extractPat4 t = some x) : isCents x.1 := by
  obtain ⟨r, v, hc, hk⟩ := numThen_sound _ _ _ h
  cases hsp : spacePlus r with
  | none => rw [hsp] at hk; exact absurd hk (by simp)
  | some r2 =>
    rw [hsp] at hk
    have hx : (v, restOfLine ((optAlt [str "dollars", str "dollar", str "euros", str "euro",
        str "pounds", str "pound", str "yen", str "yuan"] r2).dropWhile isSpaceC)) = x := by
      simpa using hk
    cases hx
    exact hc

theorem extractPat5Aux_sound :
    ∀ (rest acc : List Char) (x : ℚ × List Char),
      extractPat5Aux acc rest = some x → isCents x.1 := by
  intro rest
  induction rest with
  | nil => intro acc x h; simp [extractPat5Aux] at h
  | cons c t ih =>
    intro acc x h
    unfold extractPat5Aux at h
    rcases orElse_eq_some _ _ _ h with h1 | ⟨_, h2⟩
    · cases hsp : spacePlus (c :: t) with
      | none => rw [hsp] at h1; exact absurd h1 (by simp)
      | some r1 =>
        rw [hsp] at h1
        obtain ⟨r, v, hc, hk⟩ := numThen_sound _ _ _ (by simpa using h1)
        split at hk
        · cases hk
          exact hc
        · exact absurd hk (by simp)
    · split at h2
      · exact absurd h2 (by simp)
      · exact ih (c :: acc) x h2

theorem extractPat5_sound (t : List Char) (x : ℚ × List Char)
    (h : extractPat5 t = some x) : isCents x.1 :=
  extractPat5Aux_sound t [] x h

theorem extraction_sound (t : List Char) (x : ℚ × List Char)
    (h : extractionPatterns.findSome? (fun p => p t) = some x) : isCents x.1 := by
  obtain ⟨i, hi, hfi, _⟩ := findSome?_first_success _ _ _ h
  have hlen : extractionPatterns.length = 5 := rfl
  rcases i with _ | _ | _ | _ | _ | i
  · exact extractPat1_sound t x hfi
  · exact extractPat2_sound t x hfi
  · exact extractPat3_sound t x hfi
  · exact extractPat4_sound t x hfi
  · exact extractPat5_sound t x hfi
  · rw [hlen] at hi; omega

theorem corrPat1_sound (t : List Char) (a : ℚ) (h : corrPat1 t = some a) : isCents a := by
  refine searchPos_sound _ (fun v : ℚ => isCents v) ?_ t a h
  intro s y hy
  obtain ⟨r1, hr1⟩ := altThen_sound _ _ _ _ hy
  obtain ⟨r, v, hc, hk⟩ := numThen_sound _ _ _ hr1
  cases hk
  exact hc

theorem corrPat2_sound (t : List Char) (a : ℚ) (h : corrPat2 t = some a) : isCents a := by
  obtain ⟨r, v, hc, hk⟩ := numThen_sound _ _ _ h
  have hk' : (if (startsWithL (str "correction") (r.dropWhile isSpaceC) ||
      startsWithL (str "fix") (r.dropWhile isSpaceC) ||
      startsWithL (str "change") (r.dropWhile isSpaceC)) = true then some v else none) =
      some a := hk
  split at hk'
  · cases hk'
    exact hc
  · exact absurd hk' (by simp)

theorem corrPat3_sound (t : List Char) (a : ℚ) (h : corrPat3 t = some a) : isCents a := by
  refine searchPos_sound _ (fun v : ℚ => isCents v) ?_ t a h
  intro s y hy
  cases hl : litW (str "correction") s with
  | none => rw [hl] at hy; exact absurd hy (by simp)
  | some r =>
    rw [hl] at hy
    obtain ⟨r2, v, hc, hk⟩ := numThen_sound _ _ _ (by simpa using hy)
    cases hk
    exact hc

theorem corrAmount_sound (t : List Char) (a : ℚ) (h : corrAmount t = some a) : isCents a := by
  unfold corrAmount at h
  rcases orElse_eq_some _ _ _ h with h1 | ⟨_, h2⟩
  · exact corrPat1_sound t a h1
  · rcases orElse_eq_some _ _ _ h2 with h3 | ⟨_, h4⟩
    · exact corrPat2_sound t a h3
    · exact corrPat3_sound t a h4

theorem parse_amount_cents (s : List Char) (a : ℚ)
    (h : (parse_financial_text s).amount = some a) : isCents a := by
  cases hca : corrAmount (lowerS (detect_currency (pyStrip s)).2) with
  | some b =>
    simp only [parse_financial_text, hca] at h
    cases h
    exact corrAmount_sound _ _ hca
  | none =>
    cases hp : (extractionPatterns.findSome?
        (fun p => p (lowerS (detect_currency (pyStrip s)).2))) with
    | some ag =>
      obtain ⟨av, gv⟩ := ag
      simp only [parse_financial_text, hca, hp] at h
      cases h
      exact extraction_sound _ _ hp
    | none =>
      simp only [parse_financial_text, hca, hp] at h
      exact absurd h (by simp)

unseal Rat.add Rat.mul Rat.inv Rat.sub in
/-- C9.  The amount grammar is `\d+(?:\.\d{2})?`: every amount the parser
ever extracts is a whole number of cents, and on a one-decimal amount
either no amount is extracted at all (`"coffee 12.5"` parses to unclear
with a `NULL` amount) or the fractional digit is silently dropped
(`"actually 12.5"` parses to a correction of amount 12, not 12.5). -/
theorem c9_amount_grammar :
    parse_financial_text (str "coffee 12.5") =
        ⟨none, none, "USD", some false, ParseTag.conf 0⟩ ∧
      parse_financial_text (str "actually 12.5") =
        ⟨some 12, some (str "CORRECTION"), "USD", none, ParseTag.correction⟩ ∧
      ∀ (s : List Char) (a : ℚ), (parse_financial_text s).amount = some a → isCents a := by
  exact ⟨by decide, by decide, parse_amount_cents⟩

unseal Rat.add Rat.mul Rat.inv Rat.sub in
/-- C9 witness: the grammar-shape conjunct applied at `"actually 12.5"`,
whose extracted amount 12 is 1200 cents. -/
theorem c9_witness : isCents (12 : ℚ) :=
  c9_amount_grammar.2.2 (str "actually 12.5") 12 (by decide)

/-! ## Claim C10 -/

theorem wf_store_message (s : MyceliumStore) (uid : Nat) (un : List Char) (ts : Ts)
    (f : StagedFields) (h : wfStore s) : wfStore (store_message s uid un ts f) := by
  constructor
  · simp only [store_message, List.map_append, List.map_cons, List.map_nil]
    rw [List.pairwise_append]
    refine ⟨h.1, List.pairwise_singleton _ _, ?_⟩
    intro a ha b hb
    rcases List.mem_singleton.mp hb with rfl
    obtain ⟨r, hr, rfl⟩ := List.mem_map.mp ha
    exact h.2 r hr
  · intro r hr
    simp only [store_message, List.mem_append, List.mem_singleton] at hr
    simp only [store_message]
    rcases hr with hr | hr
    · have := h.2 r hr
      omega
    · rw [hr]
      show s.next_id < s.next_id + 1
      omega

/-- Generic pipeline lemma behind C10: any freshly staged message whose
staged columns carry an amount `a`, a placeholder description and an
`is_income` value is fetched by the pending query, categorized, written
to the ledger with those columns, and marked processed — with the ledger
only appended to — whenever the service answers 200 and both durable
writes commit. -/
theorem staged_pipeline :
    ∀ (ms : MyceliumStore) (uid : Nat) (un : List Char) (ts : Ts) (text : List Char)
      (ledger : List LedgerRow) (o : Nat → RowOracle) (body : List Char)
      (a : ℚ) (placeholder : List Char) (inc : Option Bool),
      (o ms.next_id).resp = SvcResp.http 200 body →
      (o ms.next_id).saveOk = true →
      (o ms.next_id).markOk = true →
      (stagedFieldsOf text).amount = some a →
      (stagedFieldsOf text).description = some placeholder →
      (stagedFieldsOf text).is_income = inc →
      placeholderPipeline ms uid un ts text ledger o body placeholder inc a := by
  intro ms uid un ts text ledger o body a placeholder inc hresp hsave hmark hamt hdesc hinc
  set newRow : StagedRow :=
    ⟨ms.next_id, uid, un, (stagedFieldsOf text).raw_message,
      (stagedFieldsOf text).message_type, (stagedFieldsOf text).amount,
      (stagedFieldsOf text).currency, (stagedFieldsOf text).description,
      (stagedFieldsOf text).is_income, false, ts⟩ with hnr
  have hms' : process_financial_message ms uid un ts text =
      ⟨ms.rows ++ [newRow], ms.next_id + 1⟩ := rfl
  have hpend : newRow ∈ get_pending_messages (process_financial_message ms uid un ts text) := by
    rw [mem_get_pending]
    refine ⟨?_, rfl, ?_⟩
    · rw [hms']
      exact List.mem_append.mpr (Or.inr (List.mem_singleton.mpr rfl))
    · show (stagedFieldsOf text).amount.isSome = true
      rw [hamt]
      rfl
  have hcat : categorize_transaction (o newRow.id).resp newRow.is_income =
      some (validateCategory body inc) := by
    show categorize_transaction (o ms.next_id).resp (stagedFieldsOf text).is_income =
      some (validateCategory body inc)
    rw [hinc, hresp]
    simp [categorize_transaction]
  have hins : rowInsert o newRow = some (ledgerRowOf newRow (validateCategory body inc)) := by
    unfold rowInsert
    simp only [hcat]
    rw [if_pos (show (o newRow.id).saveOk = true from hsave)]
  have hmkd : rowMarked o newRow = some newRow.id :=
    rowMarked_of_insert o newRow _ hins (show (o newRow.id).markOk = true from hmark)
  refine ⟨⟨newRow, hpend, rfl, hamt, hdesc, hinc⟩, ?_, ?_, ?_⟩
  · refine ⟨ledgerRowOf newRow (validateCategory body inc), ?_, rfl, ?_, ?_, rfl⟩
    · rw [run_ledger]
      exact List.mem_append.mpr (Or.inr (List.mem_filterMap.mpr ⟨newRow, hpend, hins⟩))
    · show (stagedFieldsOf text).description = some placeholder
      exact hdesc
    · show (stagedFieldsOf text).is_income = inc
      exact hinc
  · intro rr hrr hid
    rw [run_mycelium] at hrr
    refine mark_processed_marks _ _ rr hrr ?_
    rw [hid]
    exact List.mem_filterMap.mpr ⟨newRow, hpend, hmkd⟩
  · exact ⟨_, run_ledger _ o⟩

/-- C10.  Both kinds of placeholder rows carry a non-null amount and are
handled by the Categorizer like ordinary transactions, with no
amend-the-previous-transaction logic anywhere: a staged *correction* has
description `"CORRECTION"` and `is_income = NULL`, and a staged
amount-without-description (`unclear_amount`) message has description
`"NEEDS_CONTEXT"`; in both cases the pending query returns the row, a
successful run writes one ledger row carrying the placeholder
description and the row's `is_income`, marks the staged row processed,
and only ever appends to the ledger.  A correction's null `is_income` is
treated as an expense: the prompt's transaction type is `"expense"` and
the unknown-label fallback is `"Other"`, not `"Income - Other"`. -/
theorem c10_placeholder_rows :
    ∀ (ms : MyceliumStore) (uid : Nat) (un : List Char) (ts : Ts) (text : List Char)
      (ledger : List LedgerRow) (o : Nat → RowOracle) (body : List Char),
      (o ms.next_id).resp = SvcResp.http 200 body →
      (o ms.next_id).saveOk = true →
      (o ms.next_id).markOk = true →
      ((parse_financial_text text).tag = ParseTag.correction →
        ∃ a : ℚ,
          stagedFieldsOf text =
            ⟨text, "correction", some a, (detect_currency (pyStrip text)).1,
              some (str "CORRECTION"), none⟩ ∧
          placeholderPipeline ms uid un ts text ledger o body (str "CORRECTION") none a) ∧
      (∀ a : ℚ,
        (parse_financial_text text).tag ≠ ParseTag.correction →
        (parse_financial_text text).amount = some a →
        truthyQ (some a) = true →
        truthyD (parse_financial_text text).description = false →
        stagedFieldsOf text =
          ⟨text, "unclear_amount", some a, (parse_financial_text text).currency,
            some (str "NEEDS_CONTEXT"), (parse_financial_text text).is_income⟩ ∧
        placeholderPipeline ms uid un ts text ledger o body (str "NEEDS_CONTEXT")
          (parse_financial_text text).is_income a) ∧
      transaction_type none = "expense" ∧
      validateCategory (str "Banana") none = str "Other" := by
  intro ms uid un ts text ledger o body hresp hsave hmark
  refine ⟨?_, ?_, rfl, by decide⟩
  · intro htag
    obtain ⟨a, ha⟩ := parse_correction_shape text htag
    have hsf : stagedFieldsOf text =
        ⟨text, "correction", some a, (detect_currency (pyStrip text)).1,
          some (str "CORRECTION"), none⟩ := by
      simp [stagedFieldsOf, ha]
    refine ⟨a, hsf, ?_⟩
    exact staged_pipeline ms uid un ts text ledger o body a (str "CORRECTION") none
      hresp hsave hmark (by rw [hsf]) (by rw [hsf]) (by rw [hsf])
  · intro a htag hamt htr hde
    have hsf : stagedFieldsOf text =
        ⟨text, "unclear_amount", some a, (parse_financial_text text).currency,
          some (str "NEEDS_CONTEXT"), (parse_financial_text text).is_income⟩ := by
      simp only [stagedFieldsOf]
      rw [if_neg htag, hamt, htr, hde]
      simp
    refine ⟨hsf, ?_⟩
    exact staged_pipeline ms uid un ts text ledger o body a (str "NEEDS_CONTEXT")
      (parse_financial_text text).is_income hresp hsave hmark
      (by rw [hsf]) (by rw [hsf]) (by rw [hsf])

unseal Rat.add Rat.mul Rat.inv Rat.sub in
/-- C10 witness: both placeholder kinds, staged into an empty store and
run against a service answering 200 with the unknown label `"Banana"`
(so the expense fallback `"Other"` applies).  `"Actually 12.50"` is a
staged correction (amount 12.50, description `"CORRECTION"`,
`is_income = NULL`); `"earned 100"` is a staged `unclear_amount` row
(amount 100, description `"NEEDS_CONTEXT"`); each is fetched, written to
the ledger with its placeholder, and marked processed, the ledger only
being appended to. -/
theorem c10_witness :
    (∃ a : ℚ,
      stagedFieldsOf (str "Actually 12.50") =
        ⟨str "Actually 12.50", "correction", some a,
          (detect_currency (pyStrip (str "Actually 12.50"))).1,
          some (str "CORRECTION"), none⟩ ∧
      placeholderPipeline emptyStore 7 (str "amy") ⟨3, 0⟩ (str "Actually 12.50") []
        oracleBanana (str "Banana") (str "CORRECTION") none a) ∧
    (stagedFieldsOf (str "earned 100") =
        ⟨str "earned 100", "unclear_amount", some 100,
          (parse_financial_text (str "earned 100")).currency,
          some (str "NEEDS_CONTEXT"), (parse_financial_text (str "earned 100")).is_income⟩ ∧
      placeholderPipeline emptyStore 7 (str "amy") ⟨3, 0⟩ (str "earned 100") []
        oracleBanana (str "Banana") (str "NEEDS_CONTEXT")
        (parse_financial_text (str "earned 100")).is_income 100) := by
  have h1 := c10_placeholder_rows emptyStore 7 (str "amy") ⟨3, 0⟩ (str "Actually 12.50") []
    oracleBanana (str "Banana") rfl rfl rfl
  have h2 := c10_placeholder_rows emptyStore 7 (str "amy") ⟨3, 0⟩ (str "earned 100") []
    oracleBanana (str "Banana") rfl rfl rfl
  exact ⟨h1.1 (by decide), h2.2.1 100 (by decide) (by decide) (by decide) (by decide)⟩
